import Mathlib

/-!
Verification of the chunked JSONL record store of the openalex-pipeline
repository: the streaming writer (`data_exporter_streaming.py`), the query
layer (`data_query_lib` / `src/data_query_lib`) and the run registry
(`run_manager.py`), shallowly embedded in Lean.

JSON values are modelled by the inductive `J`; one JSONL line is one `J`
value (the text serialization performed by `json.dumps`/`json.loads` is an
injective external library layer and is abstracted away, as is the gzip
byte layer, which is content-transparent: the writer's line logic is
identical for compressed and uncompressed sinks).
-/

namespace OpenAlex

/-- A JSON value, as produced by `json.loads` / consumed by `json.dumps`. -/
inductive J where
  | null
  | bool (b : Bool)
  | num (n : Int)
  | str (s : String)
  | arr (xs : List J)
  | obj (kvs : List (String × J))

/-- Key lookup in a JSON object's field list; embeds Python `dict.get(k)`
on a parsed JSON object (first binding wins; the objects built by the
writer have distinct keys). -/
def jlookup (k : String) : List (String × J) → Option J
  | [] => none
  | (k', v) :: rest => if k' = k then some v else jlookup k rest

/-- Field access `record.get(k)` as used throughout the query layer. -/
def jGet (j : J) (k : String) : Option J :=
  match j with
  | .obj kvs => jlookup k kvs
  | _ => none

/-- The `models.Author` dataclass. -/
structure Author where
  id : String
  name : String
  works_count : Int
  cited_by_count : Int
  affiliations : List String

/-- The `models.Publication` dataclass. -/
structure Publication where
  id : String
  title : String
  doi : Option String
  publication_year : Int
  pdf_url : Option String
  authors : List String
  abstract : Option String

/-- The `stonybrook_validation` sub-object of a processing result, with the
fixed key set `{found, mentions, contexts, count}` of the upstream
collaborator contract. -/
structure SBValidation where
  found : Bool
  mentions : List String
  contexts : List String
  count : Int
deriving DecidableEq

/-- One processing-result object handed to `add_author`, with the fixed key
set of the collaborator contract (`pdf_downloaded`, `pdf_path`,
`text_extracted`, `text_length`, `stonybrook_validation`, `summary`,
`timestamp`); the `result.get(key, default)` calls in `add_author` read
exactly these keys. -/
structure ProcResult where
  pdf_downloaded : Bool
  pdf_path : Option String
  text_extracted : Bool
  text_length : Int
  stonybrook_validation : SBValidation
  summary : Option String
  timestamp : Option String
deriving DecidableEq

/-- The author summary record written by `add_author` (its `author_record`
dict, after the post-loop `update`). -/
structure AuthorRecord where
  id : String
  name : String
  works_count : Int
  cited_by_count : Int
  affiliations : List String
  publications_processed : Nat
  processing_timestamp : String
  pdfs_found : Nat
  stonybrook_mentions : Nat
  summaries_generated : Nat
deriving DecidableEq

/-- The nested `processing` sub-record of a publication record. -/
structure ProcessingRecord where
  pdf_downloaded : Bool
  pdf_path : Option String
  text_extracted : Bool
  text_length : Int
  stonybrook_validation : SBValidation
  summary : Option String
  processing_timestamp : Option String
deriving DecidableEq

/-- The publication record written by `add_author` (its `pub_record` dict). -/
structure PublicationRecord where
  id : String
  title : String
  doi : Option String
  publication_year : Int
  authors : List String
  abstract : Option String
  pdf_url : Option String
  author_id : String
  author_name : String
  sequence_number : Nat
  processing : ProcessingRecord
deriving DecidableEq

/-- Encoding of an optional string: Python `None` becomes JSON `null`. -/
def optStrJ : Option String → J
  | none => J.null
  | some s => J.str s

/-- Field list of the JSON object `json.dumps` receives for the
`stonybrook_validation` sub-object. -/
def encodeSBFields (v : SBValidation) : List (String × J) :=
  [("found", J.bool v.found),
   ("mentions", J.arr (v.mentions.map J.str)),
   ("contexts", J.arr (v.contexts.map J.str)),
   ("count", J.num v.count)]

/-- Field list of the nested `processing` dict built in `add_author`. -/
def encodeProcessingFields (p : ProcessingRecord) : List (String × J) :=
  [("pdf_downloaded", J.bool p.pdf_downloaded),
   ("pdf_path", optStrJ p.pdf_path),
   ("text_extracted", J.bool p.text_extracted),
   ("text_length", J.num p.text_length),
   ("stonybrook_validation", J.obj (encodeSBFields p.stonybrook_validation)),
   ("summary", optStrJ p.summary),
   ("processing_timestamp", optStrJ p.processing_timestamp)]

/-- Field list of the `author_record` dict written by `add_author`, in the
order the source builds it. -/
def encodeAuthorFields (a : AuthorRecord) : List (String × J) :=
  [("id", J.str a.id),
   ("name", J.str a.name),
   ("works_count", J.num a.works_count),
   ("cited_by_count", J.num a.cited_by_count),
   ("affiliations", J.arr (a.affiliations.map J.str)),
   ("publications_processed", J.num a.publications_processed),
   ("processing_timestamp", J.str a.processing_timestamp),
   ("pdfs_found", J.num a.pdfs_found),
   ("stonybrook_mentions", J.num a.stonybrook_mentions),
   ("summaries_generated", J.num a.summaries_generated)]

/-- Field list of the `pub_record` dict written by `add_author`, in the
order the source builds it. -/
def encodePubFields (p : PublicationRecord) : List (String × J) :=
  [("id", J.str p.id),
   ("title", J.str p.title),
   ("doi", optStrJ p.doi),
   ("publication_year", J.num p.publication_year),
   ("authors", J.arr (p.authors.map J.str)),
   ("abstract", optStrJ p.abstract),
   ("pdf_url", optStrJ p.pdf_url),
   ("author_id", J.str p.author_id),
   ("author_name", J.str p.author_name),
   ("sequence_number", J.num p.sequence_number),
   ("processing", J.obj (encodeProcessingFields p.processing))]

/-- The JSONL line `_write_json_line` emits for an author record.  The
`compress` flag selects the sink (`gzip.open` versus plain `open`) but the
line construction is identical in both modes, which the parameter records. -/
def writtenAuthorLine (compress : Bool) (a : AuthorRecord) : J :=
  match compress with
  | _ => J.obj (encodeAuthorFields a)

/-- The JSONL line `_write_json_line` emits for a publication record;
as in `writtenAuthorLine`, the `compress` flag does not alter the line. -/
def writtenPubLine (compress : Bool) (p : PublicationRecord) : J :=
  match compress with
  | _ => J.obj (encodePubFields p)

/-- Decimal digits of a natural number, most significant first; fuel-based
so that the kernel can evaluate it on concrete inputs. -/
def digitsAux : Nat → Nat → List Nat
  | 0, _ => []
  | fuel + 1, n => if n < 10 then [n] else digitsAux fuel (n / 10) ++ [n % 10]

/-- Decimal digits of `n`, most significant first. -/
def decDigits (n : Nat) : List Nat := digitsAux (n + 1) n

/-- Python `f"{n:0wd}"` as a digit list: the decimal digits of `n`,
left-padded with zeros to width `w`. -/
def zeroPad (w n : Nat) : List Nat :=
  List.replicate (w - (decDigits n).length) 0 ++ decDigits n

/-- Extension chosen at construction: `.jsonl.gz` when compressing. -/
def extChars (compress : Bool) : List Char :=
  if compress then ".jsonl.gz".data else ".jsonl".data

/-- File name of publication chunk `i`: `publications_chunk_{i:04d}{ext}`. -/
def chunkFileName (compress : Bool) (i : Nat) : List Char :=
  "publications_chunk_".data ++ (zeroPad 4 i).map Nat.digitChar ++ extChars compress

/-- File name of the single author log: `authors{ext}`. -/
def authorsFileName (compress : Bool) : List Char :=
  "authors".data ++ extChars compress

/-- The in-memory `processing_stats` dict of the streaming exporter. -/
structure PStats where
  total_authors : Nat
  total_publications : Nat
  pdfs_downloaded : Nat
  stonybrook_mentions_found : Nat
  summaries_generated : Nat
  start_time : String
  end_time : Option String
deriving DecidableEq

/-- The `run_stats.json` sidecar document written by `save_stats`.  The
`metadata` sub-object holds the construction timestamp plus three
per-process constants (json library, version, format), of which only the
timestamp is modelled; `total_size_mb` is the deterministic size figure
computed from the files on disk. -/
structure StatsDoc where
  metadata_timestamp : String
  processing_stats : PStats
  files_authors : List Char
  files_chunks : List (List Char)
  total_chunks : Nat
  compression_enabled : Bool
  chunk_size : Nat
  total_size_mb : Nat
deriving DecidableEq

/-- The mutable state of a `StreamingDataExporter`.  File handles are
modelled by the lists of lines written so far (`authorsLines` for the
author log, `closedChunks` for rotated-away chunks, `currentChunkLines`
for the open chunk); `ioFail` models the environmental condition (disk
full, permission denied) under which every raw write raises. -/
structure WriterState where
  compress : Bool
  chunk_size : Nat
  metadata_timestamp : String
  current_chunk : Nat
  records_in_chunk : Nat
  authorsLines : List J
  closedChunks : List (List J)
  currentChunkLines : List J
  publication_files : List (List Char)
  processing_stats : PStats
  statsFile : Option StatsDoc
  closed : Bool
  ioFail : Bool

/-- The `__init__` of `StreamingDataExporter`: a new run directory with
empty files, the chunk-0 file opened and recorded in the manifest, and
zeroed counters; `ts` is the construction-time clock reading. -/
def freshWriter (compress : Bool) (chunk_size : Nat) (ts : String) (ioFail : Bool) :
    WriterState :=
  { compress := compress, chunk_size := chunk_size, metadata_timestamp := ts,
    current_chunk := 0, records_in_chunk := 0,
    authorsLines := [], closedChunks := [], currentChunkLines := [],
    publication_files := [chunkFileName compress 0],
    processing_stats :=
      { total_authors := 0, total_publications := 0, pdfs_downloaded := 0,
        stonybrook_mentions_found := 0, summaries_generated := 0,
        start_time := ts, end_time := none },
    statsFile := none, closed := false, ioFail := ioFail }

/-- A raw write to an open sink: appends one line, or raises when the
environment is in an erroring condition. -/
def handleWrite (ok : Bool) (lines : List J) (j : J) : Except String (List J) :=
  if ok then Except.ok (lines ++ [j]) else Except.error "I/O error"

/-- `_write_json_line`: the `try`/`except` around the write prints the
error and swallows it, so a failed write leaves the file unchanged and
control continues normally; there is no retry and nothing propagates. -/
def writeJsonLine (ok : Bool) (lines : List J) (j : J) : List J :=
  match handleWrite ok lines j with
  | .ok ls => ls
  | .error _ => lines

/-- `_rotate_publications_file`: close the current chunk, bump the index,
reset the running count, open the next zero-padded chunk file and append
it to the manifest. -/
def rotatePublicationsFile (st : WriterState) : WriterState :=
  { st with
    closedChunks := st.closedChunks ++ [st.currentChunkLines],
    current_chunk := st.current_chunk + 1,
    records_in_chunk := 0,
    currentChunkLines := [],
    publication_files :=
      st.publication_files ++ [chunkFileName st.compress (st.current_chunk + 1)] }

/-- The `pub_record` dict built for one `(pub, result)` pair in the
`add_author` loop; `idx` is the 1-based `enumerate` counter. -/
def buildPubRecord (author : Author) (idx : Nat) (pub : Publication)
    (result : ProcResult) : PublicationRecord :=
  { id := pub.id, title := pub.title, doi := pub.doi,
    publication_year := pub.publication_year, authors := pub.authors,
    abstract := pub.abstract, pdf_url := pub.pdf_url,
    author_id := author.id, author_name := author.name,
    sequence_number := idx,
    processing :=
      { pdf_downloaded := result.pdf_downloaded,
        pdf_path := result.pdf_path,
        text_extracted := result.text_extracted,
        text_length := result.text_length,
        stonybrook_validation := result.stonybrook_validation,
        summary := result.summary,
        processing_timestamp := result.timestamp } }

/-- Python truthiness of an optional string: `None` and `""` are falsy. -/
def optStrTruthy : Option String → Bool
  | none => false
  | some s => s != ""

/-- Accumulator of the `add_author` publication loop: the writer state plus
the three per-author summary counters collected on the way. -/
structure LoopAcc where
  st : WriterState
  pdfs_found : Nat
  stonybrook_mentions : Nat
  summaries_generated : Nat

/-- One iteration of the `add_author` loop body: rotate when the running
count has reached the threshold, write the publication record, bump the
count and update the summary statistics. -/
def processPub (author : Author) (acc : LoopAcc) (ipr : Nat × Publication × ProcResult) :
    LoopAcc :=
  let pubRec := buildPubRecord author ipr.1 ipr.2.1 ipr.2.2
  let result := ipr.2.2
  let st0 := acc.st
  let st1 := if st0.records_in_chunk ≥ st0.chunk_size then rotatePublicationsFile st0 else st0
  let st2 := { st1 with
    currentChunkLines :=
      writeJsonLine (!st1.ioFail) st1.currentChunkLines (writtenPubLine st1.compress pubRec) }
  let st3 := { st2 with records_in_chunk := st2.records_in_chunk + 1 }
  let b1 := result.pdf_downloaded
  let b2 := result.stonybrook_validation.found
  let b3 := optStrTruthy result.summary
  let st4 := { st3 with processing_stats := { st3.processing_stats with
    pdfs_downloaded := st3.processing_stats.pdfs_downloaded + (if b1 then 1 else 0),
    stonybrook_mentions_found :=
      st3.processing_stats.stonybrook_mentions_found + (if b2 then 1 else 0),
    summaries_generated :=
      st3.processing_stats.summaries_generated + (if b3 then 1 else 0) } }
  { st := st4,
    pdfs_found := acc.pdfs_found + (if b1 then 1 else 0),
    stonybrook_mentions := acc.stonybrook_mentions + (if b2 then 1 else 0),
    summaries_generated := acc.summaries_generated + (if b3 then 1 else 0) }

/-- The `author_record` dict one `add_author` call writes: built before
the loop with `publications_processed = len(publications)`, updated after
the loop with the three summary counters the loop collected. -/
def builtAuthorRecord (st : WriterState) (author : Author) (publications : List Publication)
    (processing_results : List ProcResult) (now : String) : AuthorRecord :=
  let acc := (List.enumFrom 1 (publications.zip processing_results)).foldl
    (processPub author) ⟨st, 0, 0, 0⟩
  { id := author.id, name := author.name, works_count := author.works_count,
    cited_by_count := author.cited_by_count, affiliations := author.affiliations,
    publications_processed := publications.length,
    processing_timestamp := now,
    pdfs_found := acc.pdfs_found,
    stonybrook_mentions := acc.stonybrook_mentions,
    summaries_generated := acc.summaries_generated }

/-- `add_author`: write one publication record per `zip(publications,
processing_results)` pair (rotating chunks as needed), then one author
record, then update the global counters; `now` is the clock reading used
for the author record's `processing_timestamp`. -/
def addAuthor (st : WriterState) (author : Author) (publications : List Publication)
    (processing_results : List ProcResult) (now : String) : WriterState :=
  let zipped := List.enumFrom 1 (publications.zip processing_results)
  let acc := zipped.foldl (processPub author) ⟨st, 0, 0, 0⟩
  let authorRec := builtAuthorRecord st author publications processing_results now
  let st1 := { acc.st with
    authorsLines :=
      writeJsonLine (!acc.st.ioFail) acc.st.authorsLines
        (writtenAuthorLine acc.st.compress authorRec) }
  { st1 with processing_stats := { st1.processing_stats with
    total_authors := st1.processing_stats.total_authors + 1,
    total_publications := st1.processing_stats.total_publications + publications.length } }

/-- `_calculate_total_size`, abstracted: the on-disk byte size is a
deterministic function of the written contents; total line count stands in
for the byte count, which no claim inspects beyond determinism. -/
def calculateTotalSize (st : WriterState) : Nat :=
  st.authorsLines.length + (st.closedChunks.map List.length).sum +
    st.currentChunkLines.length

/-- The `final_stats` document assembled by `save_stats`, given the
updated `processing_stats` value `ps`. -/
def buildFinalStats (st : WriterState) (ps : PStats) : StatsDoc :=
  { metadata_timestamp := st.metadata_timestamp,
    processing_stats := ps,
    files_authors := authorsFileName st.compress,
    files_chunks := st.publication_files,
    total_chunks := st.publication_files.length,
    compression_enabled := st.compress,
    chunk_size := st.chunk_size,
    total_size_mb := calculateTotalSize st }

/-- `save_stats`: stamps `end_time` with the current clock reading `now`
and (re)writes the whole sidecar document. -/
def saveStats (st : WriterState) (now : String) : WriterState :=
  let ps := { st.processing_stats with end_time := some now }
  { st with processing_stats := ps, statsFile := some (buildFinalStats st ps) }

/-- `close`: closes the two file handles; written contents are unchanged
(closing an already-closed Python file handle is a no-op). -/
def close (st : WriterState) : WriterState := { st with closed := true }

/-- Finalization of a run as performed by the callers of the exporter:
`save_stats` followed by `close`, with `now` the clock reading of the
`save_stats` call. -/
def finalize (st : WriterState) (now : String) : WriterState := close (saveStats st now)

/-- All publication lines of the run, across rotated-away chunks and the
open chunk, in write order. -/
def pubLines (st : WriterState) : List J := st.closedChunks.flatten ++ st.currentChunkLines

/-- Count of publication records across all chunks. -/
def totalPubRecordCount (st : WriterState) : Nat := (pubLines st).length

/-- The arguments of one `add_author` call. -/
structure AddAuthorCall where
  author : Author
  publications : List Publication
  processing_results : List ProcResult
  now : String

/-- A sequence of `add_author` calls driven against a writer. -/
def runCalls (st : WriterState) (calls : List AddAuthorCall) : WriterState :=
  calls.foldl (fun s c => addAuthor s c.author c.publications c.processing_results c.now) st

/-- The publication records one `add_author` call builds and writes. -/
def callPubRecords (c : AddAuthorCall) : List PublicationRecord :=
  (List.enumFrom 1 (c.publications.zip c.processing_results)).map
    (fun ip => buildPubRecord c.author ip.1 ip.2.1 ip.2.2)

/-- The chunk-level effect of appending one publication line: rotate first
when the running count has reached the threshold, then append to the
current chunk. -/
def chunkStep (N : Nat) (s : List (List J) × List J) (j : J) : List (List J) × List J :=
  if s.2.length ≥ N then (s.1 ++ [s.2], [j]) else (s.1, s.2 ++ [j])

/-- Reads a JSON value as a string field. -/
def asStr : J → Option String
  | .str s => some s
  | _ => none

/-- Reads a JSON value as an optional (nullable) string field. -/
def asOptStr : J → Option (Option String)
  | .null => some none
  | .str s => some (some s)
  | _ => none

/-- Reads a JSON value as an integer field. -/
def asInt : J → Option Int
  | .num n => some n
  | _ => none

/-- Reads a JSON value as a nonnegative count field. -/
def asNat : J → Option Nat
  | .num n => if 0 ≤ n then some n.toNat else none
  | _ => none

/-- Reads a JSON value as a boolean field. -/
def asBool : J → Option Bool
  | .bool b => some b
  | _ => none

/-- Reads a list of JSON values as strings, failing on the first non-string. -/
def asStrs : List J → Option (List String)
  | [] => some []
  | j :: js =>
    match asStr j, asStrs js with
    | some s, some ss => some (s :: ss)
    | _, _ => none

/-- Reads a JSON array of strings. -/
def asStrList : J → Option (List String)
  | .arr xs => asStrs xs
  | _ => none

/-- Reader-side decoding of a `stonybrook_validation` object: one key
lookup per field of the contract, as the read-side `.get` chains do. -/
def decodeSBObj (kvs : List (String × J)) : Option SBValidation := do
  let found ← jlookup "found" kvs >>= asBool
  let mentions ← jlookup "mentions" kvs >>= asStrList
  let contexts ← jlookup "contexts" kvs >>= asStrList
  let count ← jlookup "count" kvs >>= asInt
  pure ⟨found, mentions, contexts, count⟩

/-- Reader-side decoding of a nested `processing` object. -/
def decodeProcessingObj (kvs : List (String × J)) : Option ProcessingRecord := do
  let pdf_downloaded ← jlookup "pdf_downloaded" kvs >>= asBool
  let pdf_path ← jlookup "pdf_path" kvs >>= asOptStr
  let text_extracted ← jlookup "text_extracted" kvs >>= asBool
  let text_length ← jlookup "text_length" kvs >>= asInt
  let sb ← jlookup "stonybrook_validation" kvs >>= fun j =>
    match j with
    | .obj sbkvs => decodeSBObj sbkvs
    | _ => none
  let summary ← jlookup "summary" kvs >>= asOptStr
  let pts ← jlookup "processing_timestamp" kvs >>= asOptStr
  pure ⟨pdf_downloaded, pdf_path, text_extracted, text_length, sb, summary, pts⟩

/-- Reader-side decoding of an author record object: the fields a consumer
of `query_authors` reads by key, assembled back into an `AuthorRecord`. -/
def decodeAuthorObj (kvs : List (String × J)) : Option AuthorRecord := do
  let id ← jlookup "id" kvs >>= asStr
  let name ← jlookup "name" kvs >>= asStr
  let works_count ← jlookup "works_count" kvs >>= asInt
  let cited_by_count ← jlookup "cited_by_count" kvs >>= asInt
  let affiliations ← jlookup "affiliations" kvs >>= asStrList
  let pp ← jlookup "publications_processed" kvs >>= asNat
  let pts ← jlookup "processing_timestamp" kvs >>= asStr
  let pdfs_found ← jlookup "pdfs_found" kvs >>= asNat
  let sbm ← jlookup "stonybrook_mentions" kvs >>= asNat
  let sg ← jlookup "summaries_generated" kvs >>= asNat
  pure ⟨id, name, works_count, cited_by_count, affiliations, pp, pts, pdfs_found, sbm, sg⟩

/-- Reader-side decoding of a publication record object. -/
def decodePubObj (kvs : List (String × J)) : Option PublicationRecord := do
  let id ← jlookup "id" kvs >>= asStr
  let title ← jlookup "title" kvs >>= asStr
  let doi ← jlookup "doi" kvs >>= asOptStr
  let publication_year ← jlookup "publication_year" kvs >>= asInt
  let authors ← jlookup "authors" kvs >>= asStrList
  let abstract ← jlookup "abstract" kvs >>= asOptStr
  let pdf_url ← jlookup "pdf_url" kvs >>= asOptStr
  let author_id ← jlookup "author_id" kvs >>= asStr
  let author_name ← jlookup "author_name" kvs >>= asStr
  let seq ← jlookup "sequence_number" kvs >>= asNat
  let processing ← jlookup "processing" kvs >>= fun j =>
    match j with
    | .obj pkvs => decodeProcessingObj pkvs
    | _ => none
  pure ⟨id, title, doi, publication_year, authors, abstract, pdf_url,
        author_id, author_name, seq, processing⟩

/-- Decoding of one parsed JSONL line into an author record. -/
def decodeAuthorLine (j : J) : Option AuthorRecord :=
  match j with
  | .obj kvs => decodeAuthorObj kvs
  | _ => none

/-- Decoding of one parsed JSONL line into a publication record. -/
def decodePubLine (j : J) : Option PublicationRecord :=
  match j with
  | .obj kvs => decodePubObj kvs
  | _ => none

/-- The author records on disk, read back through the codec. -/
def writtenAuthorRecords (st : WriterState) : List AuthorRecord :=
  st.authorsLines.filterMap decodeAuthorLine

/-- Sum of the `publications_processed` field over all author records on
disk. -/
def sumPublicationsProcessed (st : WriterState) : Nat :=
  ((writtenAuthorRecords st).map (fun a => a.publications_processed)).sum

/-- Structural invariant of the writer maintained while all writes
succeed: the running count equals the open chunk's line count, the chunk
index equals the number of rotated-away chunks, and the manifest lists the
zero-padded chunk file names in index order. -/
def WInv (st : WriterState) : Prop :=
  st.records_in_chunk = st.currentChunkLines.length ∧
  st.current_chunk = st.closedChunks.length ∧
  st.publication_files =
    (List.range (st.closedChunks.length + 1)).map (chunkFileName st.compress)

/-- Flat content of a chunk-level state: all rotated chunks then the open
chunk. -/
def chunkJoin (s : List (List J) × List J) : List J := s.1.flatten ++ s.2

/-- The publication lines one `add_author` call appends, in write order. -/
def callPubLines (compress : Bool) (c : AddAuthorCall) : List J :=
  (callPubRecords c).map (writtenPubLine compress)

/-- A sample author value used in concrete evaluations. -/
def sampleAuthor : Author := ⟨"A1", "Alice", 3, 5, ["SBU"]⟩

/-- A sample publication value used in concrete evaluations. -/
def samplePub : Publication := ⟨"W1", "Title One", none, 2020, none, ["Alice"], none⟩

/-- A second sample publication value. -/
def samplePub2 : Publication := ⟨"W2", "Title Two", some "d2", 2021, none, ["Alice", "Bob"], some "abs"⟩

/-- A sample processing result value. -/
def sampleResult : ProcResult := ⟨false, none, false, 0, ⟨false, [], [], 0⟩, none, none⟩

/-- A second sample processing result value. -/
def sampleResult2 : ProcResult :=
  ⟨true, some "/tmp/w2.pdf", true, 120, ⟨true, ["sb"], ["ctx"], 1⟩, some "sum", some "t"⟩

/-- One raw line of a JSONL file as `read_jsonl_file` sees it after
`strip()`: blank (skipped), a line `json.loads` parses to a value, or a
malformed line (carrying its raw text) on which `json.loads` raises. -/
inductive Line where
  | blank
  | record (j : J)
  | malformed (s : String)

/-- Whether a line is one `json.loads` rejects. -/
def Line.isMalformed : Line → Bool
  | .malformed _ => true
  | _ => false

/-- The parsed value of a line, when it has one. -/
def lineRecord : Line → Option J
  | .record j => some j
  | _ => none

/-- `read_jsonl_file`: iterate the lines, skip blank ones, yield each
parsed record.  There is no handler around the parse, so a malformed line
raises out of the generator: the records before it have already been
yielded and iteration stops there.  The Boolean flag records whether the
scan aborted with a parse error. -/
def readJsonlFile : List Line → List J × Bool
  | [] => ([], false)
  | Line.blank :: rest => readJsonlFile rest
  | Line.record j :: rest =>
    let r := readJsonlFile rest
    (j :: r.1, r.2)
  | Line.malformed _ :: _ => ([], true)

/-- Python string `<` (code-point lexicographic order), as used by
`sorted` on file names. -/
def charListLt : List Char → List Char → Bool
  | [], [] => false
  | [], _ :: _ => true
  | _ :: _, [] => false
  | a :: as, b :: bs =>
    if a.toNat < b.toNat then true
    else if b.toNat < a.toNat then false
    else charListLt as bs

/-- Whether `pre` is an initial segment of `l` (glob pattern `pre*`;
fnmatch `*` matches any characters, dots included). -/
def leadsWith : List Char → List Char → Bool
  | [], _ => true
  | _ :: _, [] => false
  | a :: as, b :: bs => a == b && leadsWith as bs

/-- Whether `suf` is a final segment of `l` (glob pattern `*suf`). -/
def trailsWith (suf l : List Char) : Bool := leadsWith suf.reverse l.reverse

/-- Whether a file name matches one of the four glob patterns of
`_find_publication_chunks`; the patterns are mutually exclusive, so
filtering once and sorting equals extending pattern by pattern and
sorting. -/
def matchesChunkPattern (name : List Char) : Bool :=
  (leadsWith "publications_chunk_".data name && trailsWith ".jsonl.gz".data name) ||
  (leadsWith "publications_chunk_".data name && trailsWith ".jsonl".data name) ||
  name == "publications.jsonl.gz".data || name == "publications.jsonl".data

/-- Stable insertion step: `x` goes in front of the first element that
does not strictly precede it, so elements the comparison ties keep their
original relative order — the guarantee Python's stable `sorted` gives. -/
def insertSorted {α : Type} (lt : α → α → Bool) (x : α) : List α → List α
  | [] => [x]
  | y :: ys => if lt y x then y :: insertSorted lt x ys else x :: y :: ys

/-- Stable sort with strict comparison `lt`, modelling Python `sorted`. -/
def sortByLt {α : Type} (lt : α → α → Bool) (l : List α) : List α :=
  l.foldr (insertSorted lt) []

/-- `_find_publication_chunks` over a directory listing of (file name,
file lines) pairs: keep the files matching a chunk pattern, sorted by file
name. -/
def discoverPublicationChunks (files : List (List Char × List Line)) :
    List (List Char × List Line) :=
  sortByLt (fun a b => charListLt a.1 b.1) (files.filter (fun f => matchesChunkPattern f.1))

/-- The chunk-scanning loop of `query_publications`: read each discovered
chunk with `read_jsonl_file` in order; a parse error propagates, so the
records yielded so far stand and no later chunk is visited. -/
def scanChunkFiles : List (List Char × List Line) → List J × Bool
  | [] => ([], false)
  | c :: cs =>
    let r := readJsonlFile c.2
    if r.2 then (r.1, true)
    else
      let r2 := scanChunkFiles cs
      (r.1 ++ r2.1, r2.2)

/-- `query_publications` with a filter over a run directory listing. -/
def queryPublicationsRun (files : List (List Char × List Line)) (filt : J → Bool) :
    List J × Bool :=
  let s := scanChunkFiles (discoverPublicationChunks files)
  (s.1.filter filt, s.2)

/-- The fields `list_runs` reads out of a parsed `run_stats.json`: the
`metadata` timestamp and the two totals from `processing_stats` (each
possibly absent from the document). -/
structure StatsSidecar where
  timestamp : Option String
  total_authors : Option Nat
  total_publications : Option Nat
deriving DecidableEq

/-- One directory entry under the output root: its name, whether it is a
directory, and its `run_stats.json` content — `none` when the file is
missing, `some none` when it exists but `json.load` raises, `some (some s)`
when it parses. -/
structure DirEntry where
  name : String
  isDir : Bool
  stats : Option (Option StatsSidecar)
deriving DecidableEq

/-- One row of the Registry listing. -/
structure RunEntry where
  run_name : String
  created : String
  total_authors : Nat
  total_publications : Nat
deriving DecidableEq

/-- The row `list_runs` builds for one run directory: a missing or
unparsable sidecar leaves the metadata dict empty, so every lookup falls
back to its default (`"Unknown"` / `0`). -/
def runEntryFor (d : DirEntry) : RunEntry :=
  match d.stats with
  | some (some s) =>
    { run_name := d.name,
      created := s.timestamp.getD "Unknown",
      total_authors := s.total_authors.getD 0,
      total_publications := s.total_publications.getD 0 }
  | _ =>
    { run_name := d.name, created := "Unknown",
      total_authors := 0, total_publications := 0 }

/-- `RunManager.list_runs`: keep the `run_*` subdirectories, build one row
per run, and sort by the `created` string, descending (Python's stable
`sorted` with `reverse=True`). -/
def listRuns (root : List DirEntry) : List RunEntry :=
  sortByLt (fun a b => charListLt b.created.data a.created.data)
    ((root.filter (fun d => leadsWith "run_".data d.name.data && d.isDir)).map runEntryFor)

/-- The `author_id` a publication record contributes to the statistics
scan: `pub.get("author_id")`, kept only when truthy.  Records written by
this store always carry a string `author_id`, so falsy means absent,
`null` or the empty string. -/
def pubAuthorId (p : J) : Option String :=
  match jGet p "author_id" with
  | some (J.str a) => if a == "" then none else some a
  | _ => none

/-- Python dict update `counts[k] = counts.get(k, 0) + 1` on an
insertion-ordered association list. -/
def bumpCount : List (String × Nat) → String → List (String × Nat)
  | [], a => [(a, 1)]
  | (k, v) :: rest, a =>
    if k == a then (k, v + 1) :: rest else (k, v) :: bumpCount rest a

/-- The per-author publication-count dict accumulated by the single
statistics scan, in insertion order. -/
def authorPubCounts (pubs : List J) : List (String × Nat) :=
  pubs.foldl (fun m p =>
    match pubAuthorId p with
    | some a => bumpCount m a
    | none => m) []

/-- The author ids in order of first appearance in the scan. -/
def firstSeen (pubs : List J) : List String :=
  pubs.foldl (fun seen p =>
    match pubAuthorId p with
    | some a => if seen.contains a then seen else seen ++ [a]
    | none => seen) []

/-- `sorted(author_pub_counts.items(), key=itemgetter(1), reverse=True)`:
stable descending sort by count. -/
def sortDescBySnd (l : List (String × Nat)) : List (String × Nat) :=
  sortByLt (fun a b => decide (b.2 < a.2)) l

/-- `get_author_by_id`: the first author record whose `id` field equals
the requested id. -/
def getAuthorById (authors : List J) (author_id : String) : Option J :=
  authors.find? (fun a =>
    match jGet a "id" with
    | some (J.str s) => s == author_id
    | _ => false)

/-- One row of `top_authors_by_publications`. -/
structure TopAuthorEntry where
  author_id : String
  name : Option J
  publication_count : Nat

/-- The `top_authors_by_publications` computation of `get_statistics`:
sort the count dict descending by count, take the first ten, and append
one looked-up entry per id whose author record is found. -/
def topAuthorsByPublications (authors : List J) (pubs : List J) : List TopAuthorEntry :=
  ((sortDescBySnd (authorPubCounts pubs)).take 10).foldl (fun acc ac =>
    match getAuthorById authors ac.1 with
    | some au => acc ++ [⟨ac.1, jGet au "name", ac.2⟩]
    | none => acc) []

/-- The (author id, count) pairs of the top-authors rows. -/
def topPairs (authors pubs : List J) : List (String × Nat) :=
  (topAuthorsByPublications authors pubs).map (fun e => (e.author_id, e.publication_count))

/-- Exactly `w` decimal digits of `n`, most significant first — the value
of the zero-padded formatter whenever `n < 10^w`. -/
def padDigitsMS : Nat → Nat → List Nat
  | 0, _ => []
  | w + 1, n => padDigitsMS w (n / 10) ++ [n % 10]

/-- A sample decoded author list for query-layer evaluations. -/
def sampleQueryAuthors : List J :=
  [J.obj [("id", J.str "A1"), ("name", J.str "Alice")],
   J.obj [("id", J.str "A2"), ("name", J.str "Bob")]]

/-- A sample decoded publication list for query-layer evaluations. -/
def sampleQueryPubs : List J :=
  [J.obj [("id", J.str "W1"), ("author_id", J.str "A1")],
   J.obj [("id", J.str "W2"), ("author_id", J.str "A2")],
   J.obj [("id", J.str "W3"), ("author_id", J.str "A2")]]

/-- A sample author record value used in concrete evaluations. -/
def sampleAuthorRecord : AuthorRecord := ⟨"A1", "Alice", 3, 5, ["SBU"], 2, "t1", 1, 1, 1⟩

/-- A sample publication record value used in concrete evaluations. -/
def samplePubRecord : PublicationRecord := buildPubRecord sampleAuthor 1 samplePub sampleResult

theorem asStrList_map_str (xs : List String) :
    asStrList (J.arr (xs.map J.str)) = some xs := by
  simp only [asStrList]
  induction xs with
  | nil => rfl
  | cons x xs ih => simp [asStrs, asStr, ih]

theorem asOptStr_optStrJ (s : Option String) : asOptStr (optStrJ s) = some s := by
  cases s <;> rfl

theorem asNat_num_natCast (n : Nat) : asNat (J.num (n : Int)) = some n := by
  simp [asNat]

theorem decodeSB_roundtrip (v : SBValidation) :
    decodeSBObj (encodeSBFields v) = some v := by
  cases v
  simp [decodeSBObj, encodeSBFields, jlookup, asBool, asInt, asStrList_map_str,
    Option.bind]

theorem decodeProcessing_roundtrip (p : ProcessingRecord) :
    decodeProcessingObj (encodeProcessingFields p) = some p := by
  cases p
  simp [decodeProcessingObj, encodeProcessingFields, jlookup, asBool, asInt,
    asOptStr_optStrJ, decodeSB_roundtrip, Option.bind]

theorem decodeAuthor_roundtrip (a : AuthorRecord) :
    decodeAuthorObj (encodeAuthorFields a) = some a := by
  cases a
  simp [decodeAuthorObj, encodeAuthorFields, jlookup, asStr, asInt, asNat_num_natCast,
    asStrList_map_str, Option.bind]

theorem decodePub_roundtrip (p : PublicationRecord) :
    decodePubObj (encodePubFields p) = some p := by
  cases p
  simp [decodePubObj, encodePubFields, jlookup, asStr, asInt, asNat_num_natCast,
    asStrList_map_str, asOptStr_optStrJ, decodeProcessing_roundtrip, Option.bind]

theorem chunkJoin_step (N : Nat) (s : List (List J) × List J) (j : J) :
    chunkJoin (chunkStep N s j) = chunkJoin s ++ [j] := by
  by_cases h : s.2.length ≥ N <;> simp [chunkStep, chunkJoin, h]

theorem chunkStep_foldl_join (N : Nat) (l : List J) (s : List (List J) × List J) :
    chunkJoin (l.foldl (chunkStep N) s) = chunkJoin s ++ l := by
  induction l generalizing s with
  | nil => simp
  | cons x xs ih => simp [ih, chunkJoin_step]

theorem processPub_basic (author : Author) (acc : LoopAcc)
    (ipr : Nat × Publication × ProcResult) (h : acc.st.ioFail = false) :
    (processPub author acc ipr).st.ioFail = false ∧
    (processPub author acc ipr).st.chunk_size = acc.st.chunk_size ∧
    (processPub author acc ipr).st.compress = acc.st.compress ∧
    (processPub author acc ipr).st.metadata_timestamp = acc.st.metadata_timestamp ∧
    (processPub author acc ipr).st.authorsLines = acc.st.authorsLines ∧
    (processPub author acc ipr).st.closed = acc.st.closed ∧
    (processPub author acc ipr).st.statsFile = acc.st.statsFile ∧
    (processPub author acc ipr).st.processing_stats.total_authors
      = acc.st.processing_stats.total_authors ∧
    (processPub author acc ipr).st.processing_stats.total_publications
      = acc.st.processing_stats.total_publications ∧
    pubLines (processPub author acc ipr).st
      = pubLines acc.st
        ++ [writtenPubLine acc.st.compress (buildPubRecord author ipr.1 ipr.2.1 ipr.2.2)] := by
  by_cases hc : acc.st.records_in_chunk ≥ acc.st.chunk_size <;>
    simp [processPub, rotatePublicationsFile, writeJsonLine, handleWrite, pubLines, hc, h]

theorem processPub_chunkStep (author : Author) (acc : LoopAcc)
    (ipr : Nat × Publication × ProcResult) (h : acc.st.ioFail = false)
    (hinv : WInv acc.st) :
    ((processPub author acc ipr).st.closedChunks,
     (processPub author acc ipr).st.currentChunkLines)
      = chunkStep acc.st.chunk_size (acc.st.closedChunks, acc.st.currentChunkLines)
          (writtenPubLine acc.st.compress (buildPubRecord author ipr.1 ipr.2.1 ipr.2.2)) ∧
    WInv (processPub author acc ipr).st := by
  obtain ⟨h1, h2, h3⟩ := hinv
  by_cases hc : acc.st.records_in_chunk ≥ acc.st.chunk_size
  · have hc' : acc.st.currentChunkLines.length ≥ acc.st.chunk_size := h1 ▸ hc
    refine ⟨?_, ?_, ?_, ?_⟩ <;>
      simp [processPub, rotatePublicationsFile, writeJsonLine, handleWrite, chunkStep,
        hc, hc', h, h1, h2, h3, List.range_succ]
  · have hc' : ¬ acc.st.currentChunkLines.length ≥ acc.st.chunk_size := h1 ▸ hc
    refine ⟨?_, ?_, ?_, ?_⟩ <;>
      simp [processPub, rotatePublicationsFile, writeJsonLine, handleWrite, chunkStep,
        hc, hc', h, h1, h2, h3]

theorem processPub_fail (author : Author) (acc : LoopAcc)
    (ipr : Nat × Publication × ProcResult) (h : acc.st.ioFail = true) :
    (processPub author acc ipr).st.ioFail = true ∧
    (processPub author acc ipr).st.authorsLines = acc.st.authorsLines ∧
    (processPub author acc ipr).st.processing_stats.total_authors
      = acc.st.processing_stats.total_authors ∧
    (processPub author acc ipr).st.processing_stats.total_publications
      = acc.st.processing_stats.total_publications ∧
    pubLines (processPub author acc ipr).st = pubLines acc.st := by
  by_cases hc : acc.st.records_in_chunk ≥ acc.st.chunk_size <;>
    simp [processPub, rotatePublicationsFile, writeJsonLine, handleWrite, pubLines, hc, h]

theorem foldl_processPub_basic (author : Author) (l : List (Nat × Publication × ProcResult))
    (acc : LoopAcc) (h : acc.st.ioFail = false) :
    (l.foldl (processPub author) acc).st.ioFail = false ∧
    (l.foldl (processPub author) acc).st.chunk_size = acc.st.chunk_size ∧
    (l.foldl (processPub author) acc).st.compress = acc.st.compress ∧
    (l.foldl (processPub author) acc).st.metadata_timestamp = acc.st.metadata_timestamp ∧
    (l.foldl (processPub author) acc).st.authorsLines = acc.st.authorsLines ∧
    (l.foldl (processPub author) acc).st.closed = acc.st.closed ∧
    (l.foldl (processPub author) acc).st.statsFile = acc.st.statsFile ∧
    (l.foldl (processPub author) acc).st.processing_stats.total_authors
      = acc.st.processing_stats.total_authors ∧
    (l.foldl (processPub author) acc).st.processing_stats.total_publications
      = acc.st.processing_stats.total_publications ∧
    pubLines (l.foldl (processPub author) acc).st
      = pubLines acc.st
        ++ l.map (fun ipr =>
              writtenPubLine acc.st.compress (buildPubRecord author ipr.1 ipr.2.1 ipr.2.2)) := by
  induction l generalizing acc with
  | nil => simpa using h
  | cons x xs ih =>
    obtain ⟨f1, f2, f3, f4, f5, f6, f7, f8, f9, f10⟩ := processPub_basic author acc x h
    obtain ⟨g1, g2, g3, g4, g5, g6, g7, g8, g9, g10⟩ := ih (processPub author acc x) f1
    simp only [List.foldl_cons, List.map_cons]
    exact ⟨g1, g2.trans f2, g3.trans f3, g4.trans f4, g5.trans f5, g6.trans f6,
      g7.trans f7, g8.trans f8, g9.trans f9, by rw [g10, f10, f3]; simp⟩

theorem foldl_processPub_chunks (author : Author) (l : List (Nat × Publication × ProcResult))
    (acc : LoopAcc) (h : acc.st.ioFail = false) (hinv : WInv acc.st) :
    ((l.foldl (processPub author) acc).st.closedChunks,
     (l.foldl (processPub author) acc).st.currentChunkLines)
      = (l.map (fun ipr =>
            writtenPubLine acc.st.compress (buildPubRecord author ipr.1 ipr.2.1 ipr.2.2))).foldl
          (chunkStep acc.st.chunk_size) (acc.st.closedChunks, acc.st.currentChunkLines) ∧
    WInv (l.foldl (processPub author) acc).st := by
  induction l generalizing acc with
  | nil => exact ⟨rfl, hinv⟩
  | cons x xs ih =>
    obtain ⟨f1, f2, f3, f4, f5, f6, f7, f8, f9, f10⟩ := processPub_basic author acc x h
    obtain ⟨c1, c2⟩ := processPub_chunkStep author acc x h hinv
    obtain ⟨g1, g2⟩ := ih (processPub author acc x) f1 c2
    simp only [List.foldl_cons, List.map_cons]
    refine ⟨?_, g2⟩
    rw [g1, f3, f2, c1]

theorem foldl_processPub_fail (author : Author) (l : List (Nat × Publication × ProcResult))
    (acc : LoopAcc) (h : acc.st.ioFail = true) :
    (l.foldl (processPub author) acc).st.ioFail = true ∧
    (l.foldl (processPub author) acc).st.compress = acc.st.compress ∧
    (l.foldl (processPub author) acc).st.authorsLines = acc.st.authorsLines ∧
    (l.foldl (processPub author) acc).st.processing_stats.total_authors
      = acc.st.processing_stats.total_authors ∧
    (l.foldl (processPub author) acc).st.processing_stats.total_publications
      = acc.st.processing_stats.total_publications ∧
    pubLines (l.foldl (processPub author) acc).st = pubLines acc.st := by
  induction l generalizing acc with
  | nil => exact ⟨h, rfl, rfl, rfl, rfl, rfl⟩
  | cons x xs ih =>
    obtain ⟨f1, f2, f3, f4, f5⟩ := processPub_fail author acc x h
    have f6 : (processPub author acc x).st.compress = acc.st.compress := by
      by_cases hc : acc.st.records_in_chunk ≥ acc.st.chunk_size <;>
        simp [processPub, rotatePublicationsFile, hc]
    obtain ⟨g1, g2, g3, g4, g5, g6⟩ := ih (processPub author acc x) f1
    simp only [List.foldl_cons]
    exact ⟨g1, g2.trans f6, g3.trans f2, g4.trans f3, g5.trans f4, g6.trans f5⟩

theorem addAuthor_basic (st : WriterState) (a : Author) (pubs : List Publication)
    (res : List ProcResult) (now : String) (h : st.ioFail = false) :
    (addAuthor st a pubs res now).ioFail = false ∧
    (addAuthor st a pubs res now).chunk_size = st.chunk_size ∧
    (addAuthor st a pubs res now).compress = st.compress ∧
    (addAuthor st a pubs res now).metadata_timestamp = st.metadata_timestamp ∧
    (addAuthor st a pubs res now).closed = st.closed ∧
    (addAuthor st a pubs res now).statsFile = st.statsFile ∧
    (∃ rec : AuthorRecord,
        (addAuthor st a pubs res now).authorsLines
          = st.authorsLines ++ [writtenAuthorLine st.compress rec] ∧
        rec.publications_processed = pubs.length) ∧
    pubLines (addAuthor st a pubs res now)
      = pubLines st
        ++ (List.enumFrom 1 (pubs.zip res)).map (fun ipr =>
              writtenPubLine st.compress (buildPubRecord a ipr.1 ipr.2.1 ipr.2.2)) ∧
    (addAuthor st a pubs res now).processing_stats.total_authors
      = st.processing_stats.total_authors + 1 ∧
    (addAuthor st a pubs res now).processing_stats.total_publications
      = st.processing_stats.total_publications + pubs.length := by
  obtain ⟨f1, f2, f3, f4, f5, f6, f7, f8, f9, f10⟩ :=
    foldl_processPub_basic a (List.enumFrom 1 (pubs.zip res)) ⟨st, 0, 0, 0⟩ h
  refine ⟨?_, ?_, ?_, ?_, ?_, ?_,
    ⟨builtAuthorRecord st a pubs res now, ?_, rfl⟩, ?_, ?_, ?_⟩ <;>
    simp [addAuthor, pubLines, writeJsonLine, handleWrite, f1, f2, f3, f4, f5, f6, f7, f8, f9]
  have := f10
  simp only [pubLines] at this
  rw [this]
  simp

theorem addAuthor_chunks (st : WriterState) (a : Author) (pubs : List Publication)
    (res : List ProcResult) (now : String) (h : st.ioFail = false) (hinv : WInv st) :
    ((addAuthor st a pubs res now).closedChunks,
     (addAuthor st a pubs res now).currentChunkLines)
      = ((List.enumFrom 1 (pubs.zip res)).map (fun ipr =>
            writtenPubLine st.compress (buildPubRecord a ipr.1 ipr.2.1 ipr.2.2))).foldl
          (chunkStep st.chunk_size) (st.closedChunks, st.currentChunkLines) ∧
    WInv (addAuthor st a pubs res now) := by
  obtain ⟨c1, c2⟩ := foldl_processPub_chunks a (List.enumFrom 1 (pubs.zip res)) ⟨st, 0, 0, 0⟩ h hinv
  obtain ⟨i1, i2, i3⟩ := c2
  constructor
  · rw [← c1]
    simp [addAuthor]
  · refine ⟨?_, ?_, ?_⟩ <;> simp [addAuthor, WInv, i1, i2, i3]

theorem addAuthor_fail (st : WriterState) (a : Author) (pubs : List Publication)
    (res : List ProcResult) (now : String) (h : st.ioFail = true) :
    (addAuthor st a pubs res now).authorsLines = st.authorsLines ∧
    pubLines (addAuthor st a pubs res now) = pubLines st ∧
    (addAuthor st a pubs res now).processing_stats.total_authors
      = st.processing_stats.total_authors + 1 ∧
    (addAuthor st a pubs res now).processing_stats.total_publications
      = st.processing_stats.total_publications + pubs.length := by
  obtain ⟨g1, g2, g3, g4, g5, g6⟩ :=
    foldl_processPub_fail a (List.enumFrom 1 (pubs.zip res)) ⟨st, 0, 0, 0⟩ h
  refine ⟨?_, ?_, ?_, ?_⟩ <;>
    simp [addAuthor, pubLines, writeJsonLine, handleWrite, g1, g3, g4, g5]
  have := g6
  simp only [pubLines] at this
  rw [this]

theorem callPubLines_eq (compress : Bool) (c : AddAuthorCall) :
    callPubLines compress c
      = (List.enumFrom 1 (c.publications.zip c.processing_results)).map (fun ipr =>
          writtenPubLine compress (buildPubRecord c.author ipr.1 ipr.2.1 ipr.2.2)) := by
  simp [callPubLines, callPubRecords, List.map_map]

theorem callPubLines_length (compress : Bool) (c : AddAuthorCall) :
    (callPubLines compress c).length
      = min c.publications.length c.processing_results.length := by
  simp [callPubLines, callPubRecords]

theorem runCalls_basic (calls : List AddAuthorCall) (st : WriterState)
    (h : st.ioFail = false) :
    (runCalls st calls).ioFail = false ∧
    (runCalls st calls).chunk_size = st.chunk_size ∧
    (runCalls st calls).compress = st.compress ∧
    (∃ recs : List AuthorRecord,
        (runCalls st calls).authorsLines
          = st.authorsLines ++ recs.map (writtenAuthorLine st.compress) ∧
        recs.map (fun r => r.publications_processed)
          = calls.map (fun c => c.publications.length)) ∧
    pubLines (runCalls st calls)
      = pubLines st ++ calls.flatMap (callPubLines st.compress) ∧
    (runCalls st calls).processing_stats.total_authors
      = st.processing_stats.total_authors + calls.length ∧
    (runCalls st calls).processing_stats.total_publications
      = st.processing_stats.total_publications
        + (calls.map (fun c => c.publications.length)).sum := by
  induction calls generalizing st with
  | nil => exact ⟨h, rfl, rfl, ⟨[], by simp [runCalls], rfl⟩, by simp [runCalls], rfl, rfl⟩
  | cons c cs ih =>
    obtain ⟨f1, f2, f3, f4, f5, f6, ⟨rec, hrec, hrecpp⟩, f8, f9, f10⟩ :=
      addAuthor_basic st c.author c.publications c.processing_results c.now h
    obtain ⟨g1, g2, g3, ⟨recs, hrecs, hrecspp⟩, g5, g6, g7⟩ :=
      ih (addAuthor st c.author c.publications c.processing_results c.now) f1
    have hrun : runCalls st (c :: cs)
        = runCalls (addAuthor st c.author c.publications c.processing_results c.now) cs := by
      simp [runCalls]
    refine ⟨hrun ▸ g1, hrun ▸ (g2.trans f2), hrun ▸ (g3.trans f3),
      ⟨rec :: recs, ?_, ?_⟩, ?_, ?_, ?_⟩
    · rw [hrun, hrecs, hrec, f3]
      simp
    · simp [hrecspp, hrecpp]
    · rw [hrun, g5, f8, f3]
      simp [callPubLines_eq]
    · rw [hrun, g6, f9]
      simp only [List.length_cons]
      omega
    · rw [hrun, g7, f10]
      simp only [List.map_cons, List.sum_cons]
      omega

theorem runCalls_chunks (calls : List AddAuthorCall) (st : WriterState)
    (h : st.ioFail = false) (hinv : WInv st) :
    ((runCalls st calls).closedChunks, (runCalls st calls).currentChunkLines)
      = (calls.flatMap (callPubLines st.compress)).foldl (chunkStep st.chunk_size)
          (st.closedChunks, st.currentChunkLines) ∧
    WInv (runCalls st calls) := by
  induction calls generalizing st with
  | nil => exact ⟨rfl, hinv⟩
  | cons c cs ih =>
    obtain ⟨f1, f2, f3, f4, f5, f6, f7, f8, f9, f10⟩ :=
      addAuthor_basic st c.author c.publications c.processing_results c.now h
    obtain ⟨a1, a2⟩ :=
      addAuthor_chunks st c.author c.publications c.processing_results c.now h hinv
    obtain ⟨g1, g2⟩ :=
      ih (addAuthor st c.author c.publications c.processing_results c.now) f1 a2
    have hrun : runCalls st (c :: cs)
        = runCalls (addAuthor st c.author c.publications c.processing_results c.now) cs := by
      simp [runCalls]
    refine ⟨?_, hrun ▸ g2⟩
    rw [hrun, g1, f3, f2, a1, List.flatMap_cons, List.foldl_append, callPubLines_eq]

theorem chunkStep_fill (N : Nat) (xs : List J) (closed : List (List J)) (cur : List J)
    (h : cur.length + xs.length ≤ N) :
    xs.foldl (chunkStep N) (closed, cur) = (closed, cur ++ xs) := by
  induction xs generalizing cur with
  | nil => simp
  | cons x xs ih =>
    have hlt : ¬ cur.length ≥ N := by simp at h; omega
    have hstep : chunkStep N (closed, cur) x = (closed, cur ++ [x]) := by
      simp [chunkStep, hlt]
    rw [List.foldl_cons, hstep, ih (cur ++ [x]) (by simp at h ⊢; omega)]
    simp

theorem callPubLines_total_length (compress : Bool) (calls : List AddAuthorCall)
    (hlen : ∀ c ∈ calls, c.publications.length = c.processing_results.length) :
    (calls.flatMap (callPubLines compress)).length
      = (calls.map (fun c => c.publications.length)).sum := by
  induction calls with
  | nil => rfl
  | cons c cs ih =>
    simp only [List.flatMap_cons, List.length_append, List.map_cons, List.sum_cons,
      callPubLines_length]
    rw [hlen c (by simp), Nat.min_self, ih (fun d hd => hlen d (by simp [hd]))]

theorem writtenAuthorRecords_of_map (c : Bool) (recs : List AuthorRecord) :
    (recs.map (writtenAuthorLine c)).filterMap decodeAuthorLine = recs := by
  induction recs with
  | nil => rfl
  | cons r rs ih => simp [writtenAuthorLine, decodeAuthorLine, decodeAuthor_roundtrip, ih]

/-- C5: for every completed run built from `add_author` calls whose
`publications` and `processing_results` lists have equal lengths, the sum
of `publications_processed` over all author records written equals the
number of publication records written across all chunks. -/
theorem claim_join_consistency (compress : Bool) (N : Nat) (ts tEnd : String)
    (calls : List AddAuthorCall)
    (hlen : ∀ c ∈ calls, c.publications.length = c.processing_results.length) :
    sumPublicationsProcessed (finalize (runCalls (freshWriter compress N ts false) calls) tEnd)
      = totalPubRecordCount (finalize (runCalls (freshWriter compress N ts false) calls) tEnd) := by
  obtain ⟨g1, g2, g3, ⟨recs, hrecs, hrecspp⟩, g5, g6, g7⟩ :=
    runCalls_basic calls (freshWriter compress N ts false) rfl
  have hsum : sumPublicationsProcessed
      (finalize (runCalls (freshWriter compress N ts false) calls) tEnd)
      = (calls.map (fun c => c.publications.length)).sum := by
    show sumPublicationsProcessed (runCalls (freshWriter compress N ts false) calls)
      = (calls.map (fun c => c.publications.length)).sum
    rw [sumPublicationsProcessed, writtenAuthorRecords, hrecs]
    show ((([] ++ recs.map (writtenAuthorLine compress)).filterMap decodeAuthorLine).map
      (fun a : AuthorRecord => a.publications_processed)).sum = _
    rw [List.nil_append, writtenAuthorRecords_of_map, hrecspp]
  have hcnt : totalPubRecordCount
      (finalize (runCalls (freshWriter compress N ts false) calls) tEnd)
      = (calls.map (fun c => c.publications.length)).sum := by
    show totalPubRecordCount (runCalls (freshWriter compress N ts false) calls) = _
    rw [totalPubRecordCount, g5]
    show (([] : List J) ++ calls.flatMap (callPubLines compress)).length = _
    rw [List.nil_append, callPubLines_total_length compress calls hlen]
  rw [hsum, hcnt]

/-- Witness for C5 at a concrete two-call run. -/
theorem claim_join_consistency_witness :
    sumPublicationsProcessed (finalize (runCalls (freshWriter false 2 "t0" false)
        [⟨sampleAuthor, [samplePub, samplePub2], [sampleResult, sampleResult2], "t1"⟩,
         ⟨sampleAuthor, [samplePub], [sampleResult], "t2"⟩]) "t9")
      = totalPubRecordCount (finalize (runCalls (freshWriter false 2 "t0" false)
        [⟨sampleAuthor, [samplePub, samplePub2], [sampleResult, sampleResult2], "t1"⟩,
         ⟨sampleAuthor, [samplePub], [sampleResult], "t2"⟩]) "t9") :=
  claim_join_consistency false 2 "t0" "t9" _ (by decide)

/-- C4: with chunk-size threshold `N ≥ 1`, writing `N + 1` publication
records (across any sequence of `add_author` calls with equal-length
lists) produces exactly two chunk files in the manifest; chunk 0 holds the
first `N` records, chunk 1 holds the last one, and the chunks concatenate
back to the full record stream, so no record is split or duplicated. -/
theorem claim_rotation_boundary (compress : Bool) (N : Nat) (ts : String)
    (calls : List AddAuthorCall) (_hN : 1 ≤ N)
    (hlen : ∀ c ∈ calls, c.publications.length = c.processing_results.length)
    (htot : (calls.map (fun c => c.publications.length)).sum = N + 1) :
    (runCalls (freshWriter compress N ts false) calls).publication_files
      = [chunkFileName compress 0, chunkFileName compress 1] ∧
    (runCalls (freshWriter compress N ts false) calls).closedChunks
      = [(calls.flatMap (callPubLines compress)).take N] ∧
    (runCalls (freshWriter compress N ts false) calls).currentChunkLines
      = (calls.flatMap (callPubLines compress)).drop N ∧
    ((calls.flatMap (callPubLines compress)).take N).length = N ∧
    ((calls.flatMap (callPubLines compress)).drop N).length = 1 ∧
    (runCalls (freshWriter compress N ts false) calls).closedChunks.flatten
        ++ (runCalls (freshWriter compress N ts false) calls).currentChunkLines
      = calls.flatMap (callPubLines compress) := by
  have hL : (calls.flatMap (callPubLines compress)).length = N + 1 :=
    (callPubLines_total_length compress calls hlen).trans htot
  have hTake : ((calls.flatMap (callPubLines compress)).take N).length = N := by
    rw [List.length_take, hL]
    omega
  have hDrop : ((calls.flatMap (callPubLines compress)).drop N).length = 1 := by
    rw [List.length_drop, hL]
    omega
  have hinv0 : WInv (freshWriter compress N ts false) := by
    refine ⟨rfl, rfl, ?_⟩
    simp [freshWriter, List.range_succ]
  obtain ⟨hpair, hinv⟩ := runCalls_chunks calls (freshWriter compress N ts false) rfl hinv0
  obtain ⟨e, he⟩ := List.length_eq_one.mp hDrop
  have hfold : (calls.flatMap (callPubLines compress)).foldl (chunkStep N) ([], [])
      = ([(calls.flatMap (callPubLines compress)).take N],
         (calls.flatMap (callPubLines compress)).drop N) := by
    conv in List.foldl _ _ _ =>
      rw [← List.take_append_drop N (calls.flatMap (callPubLines compress))]
    rw [List.foldl_append,
      chunkStep_fill N ((calls.flatMap (callPubLines compress)).take N) [] []
        (by simp [hTake]),
      he, List.nil_append, List.foldl_cons]
    have : chunkStep N ([], (calls.flatMap (callPubLines compress)).take N) e
        = ([(calls.flatMap (callPubLines compress)).take N], [e]) := by
      simp [chunkStep, hTake]
    rw [this]
    simp

  have hpair' : ((runCalls (freshWriter compress N ts false) calls).closedChunks,
      (runCalls (freshWriter compress N ts false) calls).currentChunkLines)
      = ([(calls.flatMap (callPubLines compress)).take N],
         (calls.flatMap (callPubLines compress)).drop N) := by
    rw [hpair]
    show (calls.flatMap (callPubLines compress)).foldl (chunkStep N) ([], []) = _
    exact hfold
  have hclosed : (runCalls (freshWriter compress N ts false) calls).closedChunks
      = [(calls.flatMap (callPubLines compress)).take N] := congrArg Prod.fst hpair'
  have hcur : (runCalls (freshWriter compress N ts false) calls).currentChunkLines
      = (calls.flatMap (callPubLines compress)).drop N := congrArg Prod.snd hpair'
  obtain ⟨i1, i2, i3⟩ := hinv
  obtain ⟨g1, g2, g3, g4, g5, g6, g7⟩ :=
    runCalls_basic calls (freshWriter compress N ts false) rfl
  refine ⟨?_, hclosed, hcur, hTake, hDrop, ?_⟩
  · rw [i3, hclosed, g3]
    simp [freshWriter, List.range_succ]
  · rw [hclosed, hcur]
    simp

/-- Witness for C4: chunk size 1, two records in one call. -/
theorem claim_rotation_boundary_witness :
    (runCalls (freshWriter false 1 "t0" false)
        [⟨sampleAuthor, [samplePub, samplePub2], [sampleResult, sampleResult2], "t1"⟩]).publication_files
      = [chunkFileName false 0, chunkFileName false 1] ∧
    (runCalls (freshWriter false 1 "t0" false)
        [⟨sampleAuthor, [samplePub, samplePub2], [sampleResult, sampleResult2], "t1"⟩]).closedChunks
      = [([⟨sampleAuthor, [samplePub, samplePub2], [sampleResult, sampleResult2], "t1"⟩].flatMap
            (callPubLines false)).take 1] ∧
    (runCalls (freshWriter false 1 "t0" false)
        [⟨sampleAuthor, [samplePub, samplePub2], [sampleResult, sampleResult2], "t1"⟩]).currentChunkLines
      = ([⟨sampleAuthor, [samplePub, samplePub2], [sampleResult, sampleResult2], "t1"⟩].flatMap
            (callPubLines false)).drop 1 ∧
    (([⟨sampleAuthor, [samplePub, samplePub2], [sampleResult, sampleResult2], "t1"⟩].flatMap
        (callPubLines false)).take 1).length = 1 ∧
    (([⟨sampleAuthor, [samplePub, samplePub2], [sampleResult, sampleResult2], "t1"⟩].flatMap
        (callPubLines false)).drop 1).length = 1 ∧
    (runCalls (freshWriter false 1 "t0" false)
        [⟨sampleAuthor, [samplePub, samplePub2], [sampleResult, sampleResult2], "t1"⟩]).closedChunks.flatten
        ++ (runCalls (freshWriter false 1 "t0" false)
            [⟨sampleAuthor, [samplePub, samplePub2], [sampleResult, sampleResult2], "t1"⟩]).currentChunkLines
      = [⟨sampleAuthor, [samplePub, samplePub2], [sampleResult, sampleResult2], "t1"⟩].flatMap
          (callPubLines false) :=
  claim_rotation_boundary false 1 "t0" _ (by decide) (by decide) (by decide)

/-- C10: with `publications` and `processing_results` of unequal lengths,
`add_author` writes exactly `min` of the two lengths publication records
(the zipped pairs; the excess is silently dropped), while the author
record's `publications_processed` field and the run's
`total_publications` counter are both advanced by `len(publications)`. -/
theorem claim_zip_truncation (st : WriterState) (a : Author) (pubs : List Publication)
    (res : List ProcResult) (now : String) (h : st.ioFail = false) :
    totalPubRecordCount (addAuthor st a pubs res now)
      = totalPubRecordCount st + min pubs.length res.length ∧
    pubLines (addAuthor st a pubs res now)
      = pubLines st ++ (List.enumFrom 1 (pubs.zip res)).map (fun ipr =>
          writtenPubLine st.compress (buildPubRecord a ipr.1 ipr.2.1 ipr.2.2)) ∧
    (addAuthor st a pubs res now).authorsLines
      = st.authorsLines
        ++ [writtenAuthorLine st.compress (builtAuthorRecord st a pubs res now)] ∧
    (builtAuthorRecord st a pubs res now).publications_processed = pubs.length ∧
    (addAuthor st a pubs res now).processing_stats.total_publications
      = st.processing_stats.total_publications + pubs.length := by
  obtain ⟨f1, f2, f3, f4, f5, f6, f7, f8, f9, f10⟩ :=
    addAuthor_basic st a pubs res now h
  obtain ⟨g1, g2, g3, g4, g5, g6, g7, g8, g9, g10⟩ :=
    foldl_processPub_basic a (List.enumFrom 1 (pubs.zip res)) ⟨st, 0, 0, 0⟩ h
  refine ⟨?_, f8, ?_, rfl, f10⟩
  · rw [totalPubRecordCount, totalPubRecordCount, f8]
    simp
  · simp [addAuthor, writeJsonLine, handleWrite, g1, g3, g5]

/-- Witness for C10: two publications, one processing result; one record
is written while `publications_processed` stores 2. -/
theorem claim_zip_truncation_witness :
    totalPubRecordCount (addAuthor (freshWriter false 1000 "t0" false) sampleAuthor
        [samplePub, samplePub2] [sampleResult] "t1")
      = totalPubRecordCount (freshWriter false 1000 "t0" false) + 1 ∧
    (builtAuthorRecord (freshWriter false 1000 "t0" false) sampleAuthor
        [samplePub, samplePub2] [sampleResult] "t1").publications_processed = 2 ∧
    1 < 2 := by
  obtain ⟨h1, h2, h3, h4, h5⟩ := claim_zip_truncation (freshWriter false 1000 "t0" false)
    sampleAuthor [samplePub, samplePub2] [sampleResult] "t1" rfl
  exact ⟨h1, h4, by decide⟩

/-- C2 (amended): an I/O error while writing a record line is caught inside
`_write_json_line` and only logged; `add_author` performs no retry, but the
error does not propagate — the call completes, advances the run counters
as on success, and the record lines are silently missing. -/
theorem claim_write_error_swallowed (st : WriterState) (a : Author)
    (pubs : List Publication) (res : List ProcResult) (now : String)
    (h : st.ioFail = true) :
    (addAuthor st a pubs res now).authorsLines = st.authorsLines ∧
    pubLines (addAuthor st a pubs res now) = pubLines st ∧
    (addAuthor st a pubs res now).processing_stats.total_authors
      = st.processing_stats.total_authors + 1 ∧
    (addAuthor st a pubs res now).processing_stats.total_publications
      = st.processing_stats.total_publications + pubs.length ∧
    (∀ lines j, writeJsonLine false lines j = lines ∧
      handleWrite false lines j = Except.error "I/O error") :=
  ⟨(addAuthor_fail st a pubs res now h).1, (addAuthor_fail st a pubs res now h).2.1,
   (addAuthor_fail st a pubs res now h).2.2.1, (addAuthor_fail st a pubs res now h).2.2.2,
   fun _ _ => ⟨rfl, rfl⟩⟩

/-- Witness for C2 (amended) at a concrete failing-sink run. -/
theorem claim_write_error_swallowed_witness :
    (addAuthor (freshWriter false 1000 "t0" true) sampleAuthor [samplePub]
        [sampleResult] "t1").authorsLines = (freshWriter false 1000 "t0" true).authorsLines ∧
    pubLines (addAuthor (freshWriter false 1000 "t0" true) sampleAuthor [samplePub]
        [sampleResult] "t1") = pubLines (freshWriter false 1000 "t0" true) ∧
    (addAuthor (freshWriter false 1000 "t0" true) sampleAuthor [samplePub]
        [sampleResult] "t1").processing_stats.total_authors
      = (freshWriter false 1000 "t0" true).processing_stats.total_authors + 1 ∧
    (addAuthor (freshWriter false 1000 "t0" true) sampleAuthor [samplePub]
        [sampleResult] "t1").processing_stats.total_publications
      = (freshWriter false 1000 "t0" true).processing_stats.total_publications + 1 ∧
    (∀ lines j, writeJsonLine false lines j = lines ∧
      handleWrite false lines j = Except.error "I/O error") :=
  claim_write_error_swallowed (freshWriter false 1000 "t0" true) sampleAuthor
    [samplePub] [sampleResult] "t1" rfl

/-- Counterexample to C2 as stated: on a run whose sink raises on every
write, one `add_author` call raises the write error internally yet returns
success — the author/publication counters advance exactly as on a healthy
run while nothing at all reaches the files. -/
theorem claim_write_error_swallowed_counterexample :
    handleWrite false [] (writtenAuthorLine false
        (builtAuthorRecord (freshWriter false 1000 "t0" true) sampleAuthor [samplePub]
          [sampleResult] "t1")) = Except.error "I/O error" ∧
    (addAuthor (freshWriter false 1000 "t0" true) sampleAuthor [samplePub]
        [sampleResult] "t1").authorsLines = [] ∧
    pubLines (addAuthor (freshWriter false 1000 "t0" true) sampleAuthor [samplePub]
        [sampleResult] "t1") = [] ∧
    (addAuthor (freshWriter false 1000 "t0" true) sampleAuthor [samplePub]
        [sampleResult] "t1").processing_stats.total_authors = 1 ∧
    (addAuthor (freshWriter false 1000 "t0" true) sampleAuthor [samplePub]
        [sampleResult] "t1").processing_stats.total_publications = 1 :=
  ⟨rfl, rfl, rfl, rfl, rfl⟩

/-- C3 (amended): a second finalize raises no error and rewrites the
sidecar with the same content except for `end_time`, which `save_stats`
re-stamps from the clock on every call; the contents coincide exactly when
the two calls read the same clock value. -/
theorem claim_finalize_restamps (st : WriterState) (t1 t2 : String) :
    (finalize (finalize st t1) t2).statsFile
      = some { buildFinalStats st { st.processing_stats with end_time := some t1 } with
          processing_stats := { st.processing_stats with end_time := some t2 } } ∧
    (finalize st t1).statsFile
      = some (buildFinalStats st { st.processing_stats with end_time := some t1 }) ∧
    (t2 = t1 → finalize (finalize st t1) t2 = finalize st t1) := by
  refine ⟨rfl, rfl, fun h => ?_⟩
  subst h
  rfl

/-- Witness for C3 (amended): with an unchanged clock the second finalize
is an exact no-op. -/
theorem claim_finalize_restamps_witness :
    finalize (finalize (freshWriter true 1000 "t0" false) "t1") "t1"
      = finalize (freshWriter true 1000 "t0" false) "t1" :=
  (claim_finalize_restamps (freshWriter true 1000 "t0" false) "t1" "t1").2.2 rfl

/-- Counterexample to C3 as stated: finalizing twice with clock readings
`"t1"` then `"t2"` leaves different sidecar contents on disk (the
`end_time` field changes), so the sidecar content is not always identical
after the first and the second call. -/
theorem claim_finalize_restamps_counterexample :
    (finalize (finalize (freshWriter true 1000 "t0" false) "t1") "t2").statsFile
      ≠ (finalize (freshWriter true 1000 "t0" false) "t1").statsFile := by
  decide

theorem jlookup_perm (k : String) {l1 l2 : List (String × J)} (h : l1.Perm l2) :
    (l2.map Prod.fst).Nodup → jlookup k l1 = jlookup k l2 := by
  induction h with
  | nil => exact fun _ => rfl
  | cons x h ih =>
    intro nd
    simp only [List.map_cons, List.nodup_cons] at nd
    by_cases hx : x.1 = k <;> simp [jlookup, hx, ih nd.2]
  | swap x y l =>
    intro nd
    simp only [List.map_cons, List.nodup_cons, List.mem_cons] at nd
    have hxy : x.1 ≠ y.1 := fun hh => nd.1 (Or.inl hh)
    by_cases hx : x.1 = k
    · have hy : ¬ y.1 = k := fun hh => hxy (hx.trans hh.symm)
      simp [jlookup, hx, hy]
    · by_cases hy : y.1 = k <;> simp [jlookup, hx, hy]
  | trans h12 h23 ih12 ih23 =>
    intro nd
    have nd2 := ((h23.map Prod.fst).nodup_iff).mpr nd
    exact (ih12 nd2).trans (ih23 nd)

theorem encodeAuthorFields_keysNodup (a : AuthorRecord) :
    ((encodeAuthorFields a).map Prod.fst).Nodup := by
  have : (encodeAuthorFields a).map Prod.fst
      = ["id", "name", "works_count", "cited_by_count", "affiliations",
         "publications_processed", "processing_timestamp", "pdfs_found",
         "stonybrook_mentions", "summaries_generated"] := rfl
  rw [this]
  decide

theorem encodePubFields_keysNodup (p : PublicationRecord) :
    ((encodePubFields p).map Prod.fst).Nodup := by
  have : (encodePubFields p).map Prod.fst
      = ["id", "title", "doi", "publication_year", "authors", "abstract",
         "pdf_url", "author_id", "author_name", "sequence_number", "processing"] := rfl
  rw [this]
  decide

/-- C6: encoding an author or publication record as one JSONL line and
decoding it back yields the original record, field for field, with
compression on or off, and independently of the order of the JSON object's
keys. -/
theorem claim_codec_roundtrip (compress : Bool) (a : AuthorRecord) (p : PublicationRecord)
    (kvsA kvsP : List (String × J))
    (hA : kvsA.Perm (encodeAuthorFields a)) (hP : kvsP.Perm (encodePubFields p)) :
    decodeAuthorLine (writtenAuthorLine compress a) = some a ∧
    decodePubLine (writtenPubLine compress p) = some p ∧
    decodeAuthorObj kvsA = some a ∧
    decodePubObj kvsP = some p := by
  have hlA : ∀ k, jlookup k kvsA = jlookup k (encodeAuthorFields a) :=
    fun k => jlookup_perm k hA (encodeAuthorFields_keysNodup a)
  have hlP : ∀ k, jlookup k kvsP = jlookup k (encodePubFields p) :=
    fun k => jlookup_perm k hP (encodePubFields_keysNodup p)
  refine ⟨?_, ?_, ?_, ?_⟩
  · simpa [writtenAuthorLine, decodeAuthorLine] using decodeAuthor_roundtrip a
  · simpa [writtenPubLine, decodePubLine] using decodePub_roundtrip p
  · have hrt := decodeAuthor_roundtrip a
    simp only [decodeAuthorObj] at hrt ⊢
    simp only [hlA]
    exact hrt
  · have hrt := decodePub_roundtrip p
    simp only [decodePubObj] at hrt ⊢
    simp only [hlP]
    exact hrt

/-- Witness for C6: concrete records, with the author object's first two
keys swapped relative to the writer's order. -/
theorem claim_codec_roundtrip_witness :
    decodeAuthorLine (writtenAuthorLine true sampleAuthorRecord) = some sampleAuthorRecord ∧
    decodePubLine (writtenPubLine true samplePubRecord) = some samplePubRecord ∧
    decodeAuthorObj (("name", J.str "Alice") :: ("id", J.str "A1") ::
        [("works_count", J.num 3), ("cited_by_count", J.num 5),
         ("affiliations", J.arr [J.str "SBU"]), ("publications_processed", J.num 2),
         ("processing_timestamp", J.str "t1"), ("pdfs_found", J.num 1),
         ("stonybrook_mentions", J.num 1), ("summaries_generated", J.num 1)])
      = some sampleAuthorRecord ∧
    decodePubObj (encodePubFields samplePubRecord) = some samplePubRecord :=
  claim_codec_roundtrip true sampleAuthorRecord samplePubRecord _ _
    (List.Perm.swap ("id", J.str "A1") ("name", J.str "Alice")
      [("works_count", J.num 3), ("cited_by_count", J.num 5),
       ("affiliations", J.arr [J.str "SBU"]), ("publications_processed", J.num 2),
       ("processing_timestamp", J.str "t1"), ("pdfs_found", J.num 1),
       ("stonybrook_mentions", J.num 1), ("summaries_generated", J.num 1)])
    (List.Perm.refl _)

/-- C1 (amended): a malformed line does not get skipped — `read_jsonl_file`
has no handler around the parse, so the parse error propagates: the
records before the bad line have been yielded, the rest of the file is
never reached, and a publication scan visits no later chunk; only blank
lines are skipped. -/
theorem claim_malformed_line_aborts (pre rest : List Line) (s : String)
    (h : ∀ l ∈ pre, l.isMalformed = false) :
    readJsonlFile (pre ++ Line.malformed s :: rest) = (pre.filterMap lineRecord, true) ∧
    (∀ (c : List Char × List Line) (cs : List (List Char × List Line)),
      (readJsonlFile c.2).2 = true →
        scanChunkFiles (c :: cs) = ((readJsonlFile c.2).1, true)) := by
  constructor
  · induction pre with
    | nil => rfl
    | cons l ls ih =>
      have hl := h l (by simp)
      have hrest := ih (fun x hx => h x (by simp [hx]))
      cases l with
      | blank => simpa [readJsonlFile, lineRecord] using hrest
      | record j => simp [readJsonlFile, lineRecord, hrest]
      | malformed t => simp [Line.isMalformed] at hl
  · intro c cs hab
    simp [scanChunkFiles, hab]

/-- Witness for C1 (amended): one good record before a corrupt line. -/
theorem claim_malformed_line_aborts_witness :
    readJsonlFile ([Line.record (J.obj [("id", J.str "W1")]), Line.blank]
        ++ Line.malformed "not json" :: [Line.record (J.obj [("id", J.str "W2")])])
      = ([J.obj [("id", J.str "W1")]], true) ∧
    (∀ (c : List Char × List Line) (cs : List (List Char × List Line)),
      (readJsonlFile c.2).2 = true →
        scanChunkFiles (c :: cs) = ((readJsonlFile c.2).1, true)) :=
  claim_malformed_line_aborts [Line.record (J.obj [("id", J.str "W1")]), Line.blank]
    [Line.record (J.obj [("id", J.str "W2")])] "not json" (by decide)

/-- Counterexample to C1 as stated: a chunk whose second line is corrupt
makes the publication scan abort after the first record; the record after
the bad line is never yielded and no later chunk is visited, instead of a
per-record skip. -/
theorem claim_malformed_line_aborts_counterexample :
    queryPublicationsRun
      [("publications_chunk_0000.jsonl".data,
        [Line.record (J.obj [("id", J.str "W1")]), Line.malformed "not json",
         Line.record (J.obj [("id", J.str "W2")])]),
       ("publications_chunk_0001.jsonl".data,
        [Line.record (J.obj [("id", J.str "W3")])])]
      (fun _ => true)
      = ([J.obj [("id", J.str "W1")]], true) := by
  rfl

theorem insertSorted_perm {α : Type} (lt : α → α → Bool) (x : α) (l : List α) :
    (insertSorted lt x l).Perm (x :: l) := by
  induction l with
  | nil => exact List.Perm.refl _
  | cons y ys ih =>
    by_cases h : lt y x
    · simp only [insertSorted, if_pos h]
      exact (ih.cons y).trans (List.Perm.swap x y ys)
    · simp [insertSorted, h]

theorem sortByLt_perm {α : Type} (lt : α → α → Bool) (l : List α) :
    (sortByLt lt l).Perm l := by
  induction l with
  | nil => exact List.Perm.refl _
  | cons x xs ih =>
    show (insertSorted lt x (sortByLt lt xs)).Perm (x :: xs)
    exact (insertSorted_perm lt x (sortByLt lt xs)).trans (ih.cons x)

theorem sortByLt_of_pairwise {α : Type} (lt : α → α → Bool)
    (hasym : ∀ a b, lt a b = true → lt b a = false)
    {l : List α} (h : l.Pairwise (fun a b => lt a b = true)) :
    sortByLt lt l = l := by
  induction l with
  | nil => rfl
  | cons x xs ih =>
    obtain ⟨hx, hxs⟩ := List.pairwise_cons.mp h
    show insertSorted lt x (sortByLt lt xs) = x :: xs
    rw [ih hxs]
    cases xs with
    | nil => rfl
    | cons y ys =>
      have : lt y x = false := hasym x y (hx y (by simp))
      simp [insertSorted, this]

theorem insertSorted_pairwise {α : Type} (lt : α → α → Bool)
    (hasym : ∀ a b, lt a b = true → lt b a = false)
    (hnt : ∀ a b c, lt a b = false → lt b c = false → lt a c = false)
    (x : α) {l : List α} (h : l.Pairwise (fun a b => lt b a = false)) :
    (insertSorted lt x l).Pairwise (fun a b => lt b a = false) := by
  induction l with
  | nil => simp [insertSorted]
  | cons y ys ih =>
    obtain ⟨hy, hys⟩ := List.pairwise_cons.mp h
    by_cases hc : lt y x
    · simp only [insertSorted, if_pos hc]
      refine List.pairwise_cons.mpr ⟨?_, ih hys⟩
      intro z hz
      have hz' : z ∈ x :: ys := (insertSorted_perm lt x ys).mem_iff.mp hz
      rcases List.mem_cons.mp hz' with hzx | hzys
      · rw [hzx]
        exact hasym y x hc
      · exact hy z hzys
    · simp only [insertSorted, if_neg hc]
      refine List.pairwise_cons.mpr ⟨?_, h⟩
      intro z hz
      rcases List.mem_cons.mp hz with hzy | hzys
      · subst hzy
        exact eq_false_of_ne_true hc
      · exact hnt z y x (hy z hzys) (eq_false_of_ne_true hc)

theorem sortByLt_pairwise {α : Type} (lt : α → α → Bool)
    (hasym : ∀ a b, lt a b = true → lt b a = false)
    (hnt : ∀ a b c, lt a b = false → lt b c = false → lt a c = false)
    (l : List α) :
    (sortByLt lt l).Pairwise (fun a b => lt b a = false) := by
  induction l with
  | nil => simp [sortByLt]
  | cons x xs ih => exact insertSorted_pairwise lt hasym hnt x ih

/-- C8: a `run_*` directory whose `run_stats.json` is missing or fails to
parse still appears in the Registry listing, with `created = "Unknown"`
and zero totals, and the listing is produced in full (one row per run
directory) rather than failing. -/
theorem claim_registry_resilience (root : List DirEntry) (d : DirEntry)
    (hmem : d ∈ root) (hdir : d.isDir = true)
    (hname : leadsWith "run_".data d.name.data = true)
    (hstats : d.stats = none ∨ d.stats = some none) :
    runEntryFor d ∈ listRuns root ∧
    (runEntryFor d).created = "Unknown" ∧
    (runEntryFor d).total_authors = 0 ∧
    (runEntryFor d).total_publications = 0 ∧
    (listRuns root).length
      = (root.filter (fun e => leadsWith "run_".data e.name.data && e.isDir)).length := by
  refine ⟨?_, ?_, ?_, ?_, ?_⟩
  · have hmem2 : d ∈ root.filter (fun e => leadsWith "run_".data e.name.data && e.isDir) := by
      rw [List.mem_filter]
      exact ⟨hmem, by rw [hname, hdir]; rfl⟩
    have hmem3 : runEntryFor d
        ∈ (root.filter (fun e => leadsWith "run_".data e.name.data && e.isDir)).map runEntryFor :=
      List.mem_map_of_mem runEntryFor hmem2
    exact ((sortByLt_perm _ _).mem_iff).mpr hmem3
  · rcases hstats with h | h <;> simp [runEntryFor, h]
  · rcases hstats with h | h <;> simp [runEntryFor, h]
  · rcases hstats with h | h <;> simp [runEntryFor, h]
  · simp only [listRuns]
    rw [(sortByLt_perm _ _).length_eq, List.length_map]

/-- Witness for C8: a root with one healthy run, one run lacking the
sidecar, and one non-run entry. -/
theorem claim_registry_resilience_witness :
    runEntryFor ⟨"run_20240102_000000", true, none⟩
      ∈ listRuns [⟨"run_20240101_000000", true, some (some ⟨some "2024-01-01", some 3, some 7⟩)⟩,
          ⟨"run_20240102_000000", true, none⟩, ⟨"notes.txt", false, none⟩] ∧
    (runEntryFor ⟨"run_20240102_000000", true, none⟩).created = "Unknown" ∧
    (runEntryFor ⟨"run_20240102_000000", true, none⟩).total_authors = 0 ∧
    (runEntryFor ⟨"run_20240102_000000", true, none⟩).total_publications = 0 ∧
    (listRuns [⟨"run_20240101_000000", true, some (some ⟨some "2024-01-01", some 3, some 7⟩)⟩,
        ⟨"run_20240102_000000", true, none⟩, ⟨"notes.txt", false, none⟩]).length
      = ([⟨"run_20240101_000000", true, some (some ⟨some "2024-01-01", some 3, some 7⟩)⟩,
          ⟨"run_20240102_000000", true, none⟩,
          (⟨"notes.txt", false, none⟩ : DirEntry)].filter
            (fun e => leadsWith "run_".data e.name.data && e.isDir)).length :=
  claim_registry_resilience _ _ (by simp) rfl (by decide) (Or.inl rfl)

theorem insertSorted_filter_snd (x : String × Nat) (l : List (String × Nat)) (c : Nat) :
    (insertSorted (fun a b => decide (b.2 < a.2)) x l).filter (fun p => p.2 == c)
      = if x.2 = c then x :: l.filter (fun p => p.2 == c)
        else l.filter (fun p => p.2 == c) := by
  induction l with
  | nil => by_cases hx : x.2 = c <;> simp [insertSorted, hx]
  | cons y ys ih =>
    by_cases hlt : x.2 < y.2
    · have hstep : insertSorted (fun a b => decide (b.2 < a.2)) x (y :: ys)
          = y :: insertSorted (fun a b => decide (b.2 < a.2)) x ys := by
        simp [insertSorted, hlt]
      rw [hstep]
      by_cases hx : x.2 = c
      · have hy : ¬ (y.2 = c) := by omega
        simp [List.filter_cons, hx, hy, ih]
      · by_cases hy : y.2 = c <;> simp [List.filter_cons, hx, hy, ih]
    · have hstep : insertSorted (fun a b => decide (b.2 < a.2)) x (y :: ys)
          = x :: y :: ys := by
        simp [insertSorted, hlt]
      rw [hstep]
      by_cases hx : x.2 = c <;> simp [List.filter_cons, hx]

theorem sortDescBySnd_filter (l : List (String × Nat)) (c : Nat) :
    (sortDescBySnd l).filter (fun p => p.2 == c) = l.filter (fun p => p.2 == c) := by
  induction l with
  | nil => rfl
  | cons x xs ih =>
    show ((insertSorted (fun a b => decide (b.2 < a.2)) x (sortDescBySnd xs)).filter
      (fun p => p.2 == c)) = _
    rw [insertSorted_filter_snd]
    by_cases hx : x.2 = c <;> simp [List.filter_cons, hx, ih]

theorem sortDescBySnd_perm (l : List (String × Nat)) : (sortDescBySnd l).Perm l :=
  sortByLt_perm _ l

theorem sortDescBySnd_pairwise (l : List (String × Nat)) :
    (sortDescBySnd l).Pairwise (fun a b => b.2 ≤ a.2) := by
  have := sortByLt_pairwise (fun a b : String × Nat => decide (b.2 < a.2))
    (fun a b hab => by simp at hab ⊢; omega)
    (fun a b c hab hbc => by simp at hab hbc ⊢; omega) l
  exact this.imp (fun hab => by simp at hab; omega)

theorem bumpCount_keys (m : List (String × Nat)) (a : String) :
    (bumpCount m a).map Prod.fst
      = if (m.map Prod.fst).contains a then m.map Prod.fst
        else m.map Prod.fst ++ [a] := by
  induction m with
  | nil => simp [bumpCount]
  | cons kv rest ih =>
    obtain ⟨k, v⟩ := kv
    by_cases hk : k = a
    · simp [bumpCount, hk]
    · have hkba : ¬ (k == a) = true := by simp [hk]
      simp only [bumpCount, if_neg hkba, List.map_cons]
      rw [ih]
      have hak : (a == k) = false := by
        rw [beq_eq_false_iff_ne]
        exact fun hh => hk hh.symm
      have hcc : ((k :: rest.map Prod.fst).contains a) = ((rest.map Prod.fst).contains a) := by
        rw [List.contains_cons, hak, Bool.false_or]
      rw [hcc]
      by_cases hc : (rest.map Prod.fst).contains a = true
      · rw [if_pos hc, if_pos hc]
      · rw [if_neg hc, if_neg hc]
        simp

theorem authorPubCounts_keys_aux (pubs : List J) (m : List (String × Nat)) :
    ((pubs.foldl (fun m p =>
        match pubAuthorId p with
        | some a => bumpCount m a
        | none => m) m).map Prod.fst)
      = pubs.foldl (fun seen p =>
          match pubAuthorId p with
          | some a => if seen.contains a then seen else seen ++ [a]
          | none => seen) (m.map Prod.fst) := by
  induction pubs generalizing m with
  | nil => rfl
  | cons p ps ih =>
    simp only [List.foldl_cons]
    cases hpa : pubAuthorId p with
    | none => exact ih m
    | some a => rw [ih (bumpCount m a), bumpCount_keys]

theorem authorPubCounts_keys (pubs : List J) :
    (authorPubCounts pubs).map Prod.fst = firstSeen pubs :=
  authorPubCounts_keys_aux pubs []

theorem topAuthors_fold (authors : List J) (l : List (String × Nat))
    (acc : List TopAuthorEntry)
    (h : ∀ pr ∈ l, (getAuthorById authors pr.1).isSome = true) :
    (l.foldl (fun acc ac =>
        match getAuthorById authors ac.1 with
        | some au => acc ++ [⟨ac.1, jGet au "name", ac.2⟩]
        | none => acc) acc).map (fun e => (e.author_id, e.publication_count))
      = acc.map (fun e => (e.author_id, e.publication_count)) ++ l := by
  induction l generalizing acc with
  | nil => simp
  | cons pr rest ih =>
    obtain ⟨au, hau⟩ := Option.isSome_iff_exists.mp (h pr (by simp))
    simp only [List.foldl_cons, hau]
    rw [ih _ (fun q hq => h q (by simp [hq]))]
    simp

/-- C9: `top_authors_by_publications` lists the (at most ten) authors with
the highest publication counts, in descending count order; the count map's
key order is the order of first appearance in the scan, and the sort is
stable, so equal counts come out in first-appearance order.  The lookup
hypothesis says every counted top author id has an author record, which
the writer's join invariant guarantees for store-produced runs. -/
theorem claim_top_authors (authors pubs : List J)
    (h : ∀ pr ∈ (sortDescBySnd (authorPubCounts pubs)).take 10,
        (getAuthorById authors pr.1).isSome = true) :
    topPairs authors pubs = (sortDescBySnd (authorPubCounts pubs)).take 10 ∧
    (topPairs authors pubs).Pairwise (fun a b => b.2 ≤ a.2) ∧
    (∀ pr ∈ authorPubCounts pubs, pr ∉ topPairs authors pubs →
        ∀ q ∈ topPairs authors pubs, pr.2 ≤ q.2) ∧
    (∀ c : Nat, ∃ t, (topPairs authors pubs).filter (fun p => p.2 == c) ++ t
        = (authorPubCounts pubs).filter (fun p => p.2 == c)) ∧
    (authorPubCounts pubs).map Prod.fst = firstSeen pubs ∧
    (topPairs authors pubs).length = min 10 (authorPubCounts pubs).length := by
  have htp : topPairs authors pubs = (sortDescBySnd (authorPubCounts pubs)).take 10 := by
    have := topAuthors_fold authors ((sortDescBySnd (authorPubCounts pubs)).take 10) [] h
    simpa [topPairs, topAuthorsByPublications] using this
  have hpw := sortDescBySnd_pairwise (authorPubCounts pubs)
  refine ⟨htp, ?_, ?_, ?_, authorPubCounts_keys pubs, ?_⟩
  · rw [htp]
    exact hpw.sublist (List.take_sublist 10 _)
  · intro pr hpr hnot q hq
    rw [htp] at hnot hq
    have hprs : pr ∈ sortDescBySnd (authorPubCounts pubs) :=
      (sortDescBySnd_perm _).mem_iff.mpr hpr
    have hsplit := List.take_append_drop 10 (sortDescBySnd (authorPubCounts pubs))
    rw [← hsplit] at hprs hpw
    rcases List.mem_append.mp hprs with h1 | h2
    · exact absurd h1 hnot
    · exact (List.pairwise_append.mp hpw).2.2 q hq pr h2
  · intro c
    refine ⟨((sortDescBySnd (authorPubCounts pubs)).drop 10).filter (fun p => p.2 == c), ?_⟩
    rw [htp, ← List.filter_append, List.take_append_drop, sortDescBySnd_filter]
  · rw [htp, List.length_take, (sortDescBySnd_perm _).length_eq]

/-- Witness for C9 at a concrete two-author, three-publication dataset. -/
theorem claim_top_authors_witness :
    topPairs sampleQueryAuthors sampleQueryPubs
      = (sortDescBySnd (authorPubCounts sampleQueryPubs)).take 10 ∧
    (topPairs sampleQueryAuthors sampleQueryPubs).Pairwise (fun a b => b.2 ≤ a.2) ∧
    (∀ pr ∈ authorPubCounts sampleQueryPubs,
        pr ∉ topPairs sampleQueryAuthors sampleQueryPubs →
        ∀ q ∈ topPairs sampleQueryAuthors sampleQueryPubs, pr.2 ≤ q.2) ∧
    (∀ c : Nat, ∃ t,
        (topPairs sampleQueryAuthors sampleQueryPubs).filter (fun p => p.2 == c) ++ t
          = (authorPubCounts sampleQueryPubs).filter (fun p => p.2 == c)) ∧
    (authorPubCounts sampleQueryPubs).map Prod.fst = firstSeen sampleQueryPubs ∧
    (topPairs sampleQueryAuthors sampleQueryPubs).length
      = min 10 (authorPubCounts sampleQueryPubs).length :=
  claim_top_authors sampleQueryAuthors sampleQueryPubs (by decide)

theorem digitsAux_fuel : ∀ (f1 f2 n : Nat), n < f1 → n < f2 →
    digitsAux f1 n = digitsAux f2 n := by
  intro f1
  induction f1 with
  | zero => intro f2 n h1 _; omega
  | succ f ih =>
    intro f2 n h1 h2
    cases f2 with
    | zero => omega
    | succ g =>
      by_cases hn : n < 10
      · simp [digitsAux, hn]
      · have hdiv : n / 10 < n := Nat.div_lt_self (by omega) (by omega)
        simp only [digitsAux, if_neg hn]
        rw [ih g (n / 10) (by omega) (by omega)]

theorem decDigits_small {n : Nat} (h : n < 10) : decDigits n = [n] := by
  simp [decDigits, digitsAux, h]

theorem decDigits_ge10 {n : Nat} (h : 10 ≤ n) :
    decDigits n = decDigits (n / 10) ++ [n % 10] := by
  have h1 : ¬ n < 10 := by omega
  have hdiv : n / 10 < n := Nat.div_lt_self (by omega) (by omega)
  show digitsAux (n + 1) n = _
  simp only [digitsAux, if_neg h1]
  rw [digitsAux_fuel n (n / 10 + 1) (n / 10) (by omega) (by omega)]
  rfl

theorem decDigits_length_le : ∀ (w n : Nat), 0 < w → n < 10 ^ w →
    (decDigits n).length ≤ w := by
  intro w
  induction w with
  | zero => intro n h _; omega
  | succ v ih =>
    intro n _ hn
    by_cases h10 : n < 10
    · rw [decDigits_small h10]
      simp
    · rw [decDigits_ge10 (by omega)]
      cases v with
      | zero =>
        simp [pow_succ] at hn
        omega
      | succ u =>
        have hd : n / 10 < 10 ^ (u + 1) := by
          rw [Nat.div_lt_iff_lt_mul (by omega)]
          calc n < 10 ^ (u + 1 + 1) := hn
          _ = 10 ^ (u + 1) * 10 := by rw [pow_succ]
        have := ih (n / 10) (by omega) hd
        simp only [List.length_append, List.length_cons, List.length_nil]
        omega

theorem padDigitsMS_length : ∀ (w n : Nat), (padDigitsMS w n).length = w := by
  intro w
  induction w with
  | zero => intro n; rfl
  | succ v ih =>
    intro n
    simp only [padDigitsMS, List.length_append, List.length_cons, List.length_nil, ih]

theorem padDigitsMS_cons_zero : ∀ (w n : Nat), n < 10 ^ w →
    padDigitsMS (w + 1) n = 0 :: padDigitsMS w n := by
  intro w
  induction w with
  | zero =>
    intro n hn
    have : n = 0 := by simpa using hn
    subst this
    rfl
  | succ v ih =>
    intro n hn
    have hd : n / 10 < 10 ^ v := by
      rw [Nat.div_lt_iff_lt_mul (by omega)]
      calc n < 10 ^ (v + 1) := hn
      _ = 10 ^ v * 10 := by rw [pow_succ]
    show padDigitsMS (v + 1) (n / 10) ++ [n % 10] = 0 :: (padDigitsMS v (n / 10) ++ [n % 10])
    rw [ih (n / 10) hd]
    rfl

theorem decDigits_eq_padDigitsMS : ∀ (w n : Nat), 10 ^ w ≤ n → n < 10 ^ (w + 1) →
    decDigits n = padDigitsMS (w + 1) n := by
  intro w
  induction w with
  | zero =>
    intro n h1 h2
    simp only [pow_succ, pow_zero] at h1 h2
    rw [decDigits_small (by omega)]
    show _ = padDigitsMS 0 (n / 10) ++ [n % 10]
    rw [Nat.mod_eq_of_lt (by omega)]
    rfl
  | succ v ih =>
    intro n h1 h2
    have hge : 10 ≤ n := by
      calc 10 = 10 ^ 1 := by rw [pow_one]
      _ ≤ 10 ^ (v + 1) := Nat.pow_le_pow_right (by omega) (by omega)
      _ ≤ n := h1
    rw [decDigits_ge10 hge]
    show _ = padDigitsMS (v + 1) (n / 10) ++ [n % 10]
    rw [ih (n / 10) ?_ ?_]
    · exact (Nat.le_div_iff_mul_le (by omega)).mpr (by rw [← pow_succ]; exact h1)
    · rw [Nat.div_lt_iff_lt_mul (by omega), ← pow_succ]
      exact h2

theorem zeroPad_eq_padDigitsMS : ∀ (w : Nat) {n : Nat}, n < 10 ^ (w + 1) →
    zeroPad (w + 1) n = padDigitsMS (w + 1) n := by
  intro w
  induction w with
  | zero =>
    intro n hn
    have h10 : n < 10 := by simpa using hn
    rw [zeroPad, decDigits_small h10]
    show List.replicate (1 - 1) 0 ++ [n] = padDigitsMS 0 (n / 10) ++ [n % 10]
    rw [Nat.mod_eq_of_lt h10]
    rfl
  | succ v ih =>
    intro n hn
    by_cases hlo : n < 10 ^ (v + 1)
    · have hlen : (decDigits n).length ≤ v + 1 := decDigits_length_le (v + 1) n (by omega) hlo
      have hz : zeroPad (v + 1 + 1) n = 0 :: zeroPad (v + 1) n := by
        rw [zeroPad, zeroPad]
        have : v + 1 + 1 - (decDigits n).length = (v + 1 - (decDigits n).length) + 1 := by
          omega
        rw [this, List.replicate_succ]
        rfl
      rw [hz, ih hlo, padDigitsMS_cons_zero (v + 1) n hlo]
    · have hlen : (decDigits n).length = v + 2 := by
        have hle : (decDigits n).length ≤ v + 2 := decDigits_length_le (v + 2) n (by omega) hn
        have heq := decDigits_eq_padDigitsMS (v + 1) n (by omega) hn
        rw [heq, padDigitsMS_length]
      rw [zeroPad, hlen, decDigits_eq_padDigitsMS (v + 1) n (by omega) hn]
      simp

theorem charListLt_append_same : ∀ (p u v : List Char),
    charListLt (p ++ u) (p ++ v) = charListLt u v := by
  intro p
  induction p with
  | nil => intro u v; rfl
  | cons a as ih =>
    intro u v
    simp only [List.cons_append, charListLt, if_neg (Nat.lt_irrefl a.toNat)]
    exact ih u v

theorem digitChar_val_lt : ∀ a : Nat, a < 10 → ∀ b : Nat, b < 10 → a < b →
    (Nat.digitChar a).toNat < (Nat.digitChar b).toNat := by
  decide

theorem charListLt_cons_of_lt {a b : Char} (h : a.toNat < b.toNat) (as bs : List Char) :
    charListLt (a :: as) (b :: bs) = true := by
  simp [charListLt, h]

theorem padLt : ∀ (w i j : Nat) (as bs : List Char), i < j → j < 10 ^ w →
    charListLt ((padDigitsMS w i).map Nat.digitChar ++ as)
      ((padDigitsMS w j).map Nat.digitChar ++ bs) = true := by
  intro w
  induction w with
  | zero => intro i j as bs hij hj; omega
  | succ v ih =>
    intro i j as bs hij hj
    have hjd : j / 10 < 10 ^ v := by
      rw [Nat.div_lt_iff_lt_mul (by omega)]
      calc j < 10 ^ (v + 1) := hj
      _ = 10 ^ v * 10 := by rw [pow_succ]
    have hdiv_le : i / 10 ≤ j / 10 := Nat.div_le_div_right (by omega)
    show charListLt
      ((padDigitsMS v (i / 10) ++ [i % 10]).map Nat.digitChar ++ as)
      ((padDigitsMS v (j / 10) ++ [j % 10]).map Nat.digitChar ++ bs) = true
    rw [List.map_append, List.map_append, List.append_assoc, List.append_assoc]
    rcases Nat.lt_or_ge (i / 10) (j / 10) with hlt | hge
    · exact ih (i / 10) (j / 10) _ _ hlt hjd
    · have heq : i / 10 = j / 10 := by omega
      rw [heq, charListLt_append_same]
      have hmod : i % 10 < j % 10 := by
        have hi := Nat.div_add_mod i 10
        have hj2 := Nat.div_add_mod j 10
        omega
      simp only [List.map_cons, List.map_nil, List.cons_append, List.nil_append]
      exact charListLt_cons_of_lt
        (digitChar_val_lt (i % 10) (Nat.mod_lt _ (by omega))
          (j % 10) (Nat.mod_lt _ (by omega)) hmod) _ _

theorem chunkFileName_lt (compress : Bool) {i j : Nat} (hij : i < j) (hj : j ≤ 9999) :
    charListLt (chunkFileName compress i) (chunkFileName compress j) = true := by
  have hpow : (10 : Nat) ^ 4 = 10000 := by norm_num
  have hi4 : i < 10 ^ 4 := by rw [hpow]; omega
  have hj4 : j < 10 ^ 4 := by rw [hpow]; omega
  show charListLt
    ("publications_chunk_".data ++ ((zeroPad 4 i).map Nat.digitChar ++ extChars compress))
    ("publications_chunk_".data ++ ((zeroPad 4 j).map Nat.digitChar ++ extChars compress)) = true
  rw [charListLt_append_same]
  have hzi : zeroPad 4 i = padDigitsMS 4 i := zeroPad_eq_padDigitsMS 3 hi4
  have hzj : zeroPad 4 j = padDigitsMS 4 j := zeroPad_eq_padDigitsMS 3 hj4
  rw [hzi, hzj]
  exact padLt 4 i j _ _ hij hj4

theorem leadsWith_self_append : ∀ (p r : List Char), leadsWith p (p ++ r) = true := by
  intro p
  induction p with
  | nil => intro r; rfl
  | cons a as ih => intro r; simp [leadsWith, ih]

theorem trailsWith_append_self (s x : List Char) : trailsWith s (x ++ s) = true := by
  rw [trailsWith, List.reverse_append]
  exact leadsWith_self_append s.reverse x.reverse

theorem matchesChunkPattern_chunkFileName (compress : Bool) (i : Nat) :
    matchesChunkPattern (chunkFileName compress i) = true := by
  cases compress with
  | false =>
    have h1 : leadsWith "publications_chunk_".data (chunkFileName false i) = true := by
      show leadsWith "publications_chunk_".data
        ("publications_chunk_".data ++ ((zeroPad 4 i).map Nat.digitChar ++ extChars false)) = true
      exact leadsWith_self_append _ _
    have h2 : trailsWith ".jsonl".data (chunkFileName false i) = true := by
      show trailsWith ".jsonl".data
        (("publications_chunk_".data ++ (zeroPad 4 i).map Nat.digitChar) ++ ".jsonl".data) = true
      exact trailsWith_append_self _ _
    simp [matchesChunkPattern, h1, h2]
  | true =>
    have h1 : leadsWith "publications_chunk_".data (chunkFileName true i) = true := by
      show leadsWith "publications_chunk_".data
        ("publications_chunk_".data ++ ((zeroPad 4 i).map Nat.digitChar ++ extChars true)) = true
      exact leadsWith_self_append _ _
    have h2 : trailsWith ".jsonl.gz".data (chunkFileName true i) = true := by
      show trailsWith ".jsonl.gz".data
        (("publications_chunk_".data ++ (zeroPad 4 i).map Nat.digitChar) ++ ".jsonl.gz".data) = true
      exact trailsWith_append_self _ _
    simp [matchesChunkPattern, h1, h2]

theorem charListLt_asymm : ∀ (u v : List Char),
    charListLt u v = true → charListLt v u = false := by
  intro u
  induction u with
  | nil =>
    intro v h
    cases v with
    | nil => simp [charListLt] at h
    | cons b bs => rfl
  | cons a as ih =>
    intro v h
    cases v with
    | nil => simp [charListLt] at h
    | cons b bs =>
      by_cases hab : a.toNat < b.toNat
      · have hba : ¬ b.toNat < a.toNat := by omega
        simp [charListLt, hab, hba]
      · by_cases hba : b.toNat < a.toNat
        · simp [charListLt, hab, hba] at h
        · simp only [charListLt, if_neg hab, if_neg hba] at h ⊢
          exact ih bs h

theorem readJsonlFile_records (js : List J) :
    readJsonlFile (js.map Line.record) = (js, false) := by
  induction js with
  | nil => rfl
  | cons j rest ih => simp [readJsonlFile, ih]

theorem scanChunkFiles_no_abort (files : List (List Char × List Line))
    (h : ∀ f ∈ files, (readJsonlFile f.2).2 = false) :
    scanChunkFiles files = (files.flatMap (fun f => (readJsonlFile f.2).1), false) := by
  induction files with
  | nil => rfl
  | cons c cs ih =>
    have hc := h c (by simp)
    simp [scanChunkFiles, hc, ih (fun f hf => h f (by simp [hf]))]

/-- C7 (amended): for chunk indices within the four-digit zero padding
(`index ≤ 9999`), discovery returns the chunk files sorted by file name,
which coincides with chunk-index order, and the publication scan yields
the chunks' records concatenated in that order; a legacy single-file run
is discovered as its one file.  (Beyond index 9999 the padding overflows
and the lexicographic order diverges from index order — see the
counterexample.) -/
theorem claim_chunk_order (compress : Bool) (k : Nat) (hk : k ≤ 9999)
    (contents : Nat → List J) :
    discoverPublicationChunks ((List.range (k + 1)).map (fun i =>
        (chunkFileName compress i, (contents i).map Line.record)))
      = (List.range (k + 1)).map (fun i =>
          (chunkFileName compress i, (contents i).map Line.record)) ∧
    queryPublicationsRun ((List.range (k + 1)).map (fun i =>
        (chunkFileName compress i, (contents i).map Line.record))) (fun _ => true)
      = ((List.range (k + 1)).flatMap contents, false) ∧
    discoverPublicationChunks [("publications.jsonl".data, [])]
      = [("publications.jsonl".data, [])] ∧
    discoverPublicationChunks [("publications.jsonl.gz".data, [])]
      = [("publications.jsonl.gz".data, [])] := by
  have hfilter : ((List.range (k + 1)).map (fun i =>
      (chunkFileName compress i, (contents i).map Line.record))).filter
        (fun f => matchesChunkPattern f.1)
      = (List.range (k + 1)).map (fun i =>
          (chunkFileName compress i, (contents i).map Line.record)) := by
    apply List.filter_eq_self.mpr
    intro f hf
    obtain ⟨i, hi, rfl⟩ := List.mem_map.mp hf
    exact matchesChunkPattern_chunkFileName compress i
  have hpw : ((List.range (k + 1)).map (fun i =>
      (chunkFileName compress i, (contents i).map Line.record))).Pairwise
        (fun a b => charListLt a.1 b.1 = true) := by
    rw [List.pairwise_map]
    refine (List.pairwise_lt_range _).imp_of_mem ?_
    intro i j hi hj hij
    exact chunkFileName_lt compress hij (by have := List.mem_range.mp hj; omega)
  have hdisc : discoverPublicationChunks ((List.range (k + 1)).map (fun i =>
      (chunkFileName compress i, (contents i).map Line.record)))
      = (List.range (k + 1)).map (fun i =>
          (chunkFileName compress i, (contents i).map Line.record)) := by
    rw [discoverPublicationChunks, hfilter]
    exact sortByLt_of_pairwise _ (fun a b h => charListLt_asymm _ _ h) hpw
  refine ⟨hdisc, ?_, rfl, rfl⟩
  simp only [queryPublicationsRun]
  rw [hdisc, scanChunkFiles_no_abort]
  · simp [readJsonlFile_records, List.flatMap_map]
  · intro f hf
    obtain ⟨i, hi, rfl⟩ := List.mem_map.mp hf
    simp [readJsonlFile_records]

/-- Witness for C7 (amended): a two-chunk run. -/
theorem claim_chunk_order_witness :
    discoverPublicationChunks ((List.range (1 + 1)).map (fun i =>
        (chunkFileName false i, ([J.num i] : List J).map Line.record)))
      = (List.range (1 + 1)).map (fun i =>
          (chunkFileName false i, ([J.num i] : List J).map Line.record)) ∧
    queryPublicationsRun ((List.range (1 + 1)).map (fun i =>
        (chunkFileName false i, ([J.num i] : List J).map Line.record))) (fun _ => true)
      = ((List.range (1 + 1)).flatMap (fun i => ([J.num i] : List J)), false) ∧
    discoverPublicationChunks [("publications.jsonl".data, [])]
      = [("publications.jsonl".data, [])] ∧
    discoverPublicationChunks [("publications.jsonl.gz".data, [])]
      = [("publications.jsonl.gz".data, [])] :=
  claim_chunk_order false 1 (by decide) (fun i => [J.num i])

/-- Counterexample to C7 as stated: once the chunk index outgrows the
four-digit zero padding, file-name order is no longer chunk-index order —
`publications_chunk_10000.jsonl` sorts before `publications_chunk_9999.jsonl`,
so discovery visits chunk 10000 first. -/
theorem claim_chunk_order_counterexample :
    charListLt (chunkFileName false 10000) (chunkFileName false 9999) = true ∧
    discoverPublicationChunks
        [(chunkFileName false 9999, []), (chunkFileName false 10000, [])]
      = [(chunkFileName false 10000, []), (chunkFileName false 9999, [])] :=
  ⟨rfl, rfl⟩

end OpenAlex
